import Mathlib

/-!
Verification of the hybrid error-classifier retrieval engine.

This file is a shallow embedding, in Lean 4, of the core of the
`error-classifier-ml` repository (the custom TF-IDF vectoriser, the Okapi
BM25 ranker, the cosine similarity search, the score fuser of the hybrid
engine, the feedback loop, and the vector-store reindex check), together
with theorems settling the specification claims about those components.

Modelling conventions:
* Python floats are idealised as elements of a `LinearOrderedField K`;
  every claim-level theorem instantiates `K := ℝ`, with `Real.log` for
  `np.log` / `math.log` and `Real.sqrt` for `np.sqrt` /
  `np.linalg.norm`'s square root.  Definitions stay polymorphic in `K`
  (taking the log and sqrt functions as explicit arguments where the
  source calls them) so that they remain executable and decidable
  whenever the carrier is decidable.
* Python strings are modelled on their ASCII fragment (`str.lower`, the
  regex class `\w`, `str.split()`): the corpus and the queries of this
  repository are ASCII.
* Python dicts (`defaultdict`) are modelled as insertion-ordered
  association lists: updating an existing key keeps its position,
  a fresh key is appended, matching CPython's ordered dicts.
* `np.argsort` is modelled as a stable ascending sort (NumPy's introsort
  runs plain insertion sort on the short arrays at issue here, which is
  stable); its determinism and tie behaviour are discussed at claim C8.
-/

set_option maxHeartbeats 1600000
set_option maxRecDepth 4096

namespace ErrorClassifier

/-! ### ASCII character and string helpers -/

/-- ASCII `str.lower` on a character. -/
def lowerChar (c : Char) : Char :=
  if 'A' ≤ c ∧ c ≤ 'Z' then Char.ofNat (c.toNat + 32) else c

/-- ASCII model of Python `str.lower`. -/
def lowerStr (s : String) : String := ⟨s.data.map lowerChar⟩

/-- The character class of Python's regex `\w` (ASCII fragment):
letters, digits and the underscore. -/
def isWordChar (c : Char) : Bool := c.isAlphanum || c == '_'

/-- The character class `[A-Za-z0-9]` (no underscore), used by the
specification's description of the tokeniser. -/
def isAlnumChar (c : Char) : Bool := c.isAlphanum

/-- Maximal runs of characters satisfying `p`; the accumulator holds the
current (reversed) run.  `wordRunsP isWordChar` is exactly what
`re.findall` with pattern `\b\w+\b` returns on ASCII text. -/
def wordRunsAux (p : Char → Bool) : List Char → List Char → List (List Char)
  | [], acc => if acc.isEmpty then [] else [acc.reverse]
  | c :: cs, acc =>
    if p c then wordRunsAux p cs (c :: acc)
    else if acc.isEmpty then wordRunsAux p cs [] else acc.reverse :: wordRunsAux p cs []

/-- Maximal nonempty runs of characters of `s` satisfying `p`, as strings. -/
def wordRunsP (p : Char → Bool) (s : List Char) : List String :=
  (wordRunsAux p s []).map (fun l => ⟨l⟩)

/-- Python's whitespace class for `str.split()` (ASCII fragment):
space, tab, newline, carriage return, vertical tab, form feed. -/
def pyIsSpace (c : Char) : Bool :=
  c == ' ' || c == '\t' || c == '\n' || c == '\r' || c.toNat == 11 || c.toNat == 12

/-- Model of Python `text.split()` with no argument: maximal runs of
non-whitespace characters, no empty pieces. -/
def pySplitWs (s : String) : List String := wordRunsP (fun c => !pyIsSpace c) s.data

def spaceStr : String := " "

def emptyString : String := ""

/-! ### The TF-IDF tokeniser (`TfidfVectorizer._tokenize`, `_generate_ngrams`) -/

/-- Configuration of `TfidfVectorizer.__init__`.  `minDf`/`maxDf` keep
the source's int-or-float union type. -/
structure TfidfConfig where
  maxFeatures : Option Nat
  minDf : Nat ⊕ ℚ
  maxDf : Nat ⊕ ℚ
  lowercase : Bool
  stopWords : List String
  ngramMin : Nat
  ngramMax : Nat

/-- `TfidfVectorizer._tokenize`: lowercase (when configured), take the
maximal `\w`-runs (the regex `\b\w+\b`), drop stop words. -/
def tfidfTokenize (cfg : TfidfConfig) (text : String) : List String :=
  let t := if cfg.lowercase then lowerStr text else text
  (wordRunsP isWordChar t.data).filter (fun w => decide (w ∉ cfg.stopWords))

/-- The common English stop-word list of `custom_ml/tfidf.py`. -/
def ENGLISH_STOP_WORDS : List String :=
  ["a", "an", "and", "are", "as", "at", "be", "by", "for", "from",
   "has", "he", "in", "is", "it", "its", "of", "on", "that", "the",
   "to", "was", "will", "with", "this", "but", "they", "have", "had",
   "what", "when", "where", "who", "which", "why", "how"]

/-- The n-grams of one length `n`: `' '.join(tokens[i:i+n])` for
`i in range(len(tokens) - n + 1)` (empty when `n > len(tokens)`,
as in Python, where the range is empty). -/
def ngramsOfLen (n : Nat) (tokens : List String) : List String :=
  if n ≤ tokens.length then
    (List.range (tokens.length + 1 - n)).map
      (fun i => String.intercalate spaceStr ((tokens.drop i).take n))
  else []

/-- `TfidfVectorizer._generate_ngrams`: n-grams for every length in the
configured range, shorter lengths first. -/
def generateNgrams (cfg : TfidfConfig) (tokens : List String) : List String :=
  (List.range' cfg.ngramMin (cfg.ngramMax + 1 - cfg.ngramMin)).flatMap
    (fun n => ngramsOfLen n tokens)

/-- The term sequence a document contributes: tokenise then n-grams.
(The specification's `tokenise` includes the optional n-gram emission,
so this is the spec's `tokens(d)`.) -/
def tokensNg (cfg : TfidfConfig) (doc : String) : List String :=
  generateNgrams cfg (tfidfTokenize cfg doc)

/-- The configuration the hybrid engine uses for its corpus vectoriser
(`max_features=5000`, English stop words, unigrams and bigrams). -/
def engineCfg : TfidfConfig :=
  ⟨some 5000, Sum.inl 1, Sum.inr 1, true, ENGLISH_STOP_WORDS, 1, 2⟩

/-- The tokeniser exactly as claim C7 words it: lowercase, split on runs
of characters outside `[A-Za-z0-9]` (underscore splits!), drop stop
words.  Declared from the claim's words, to be compared with the
code's tokeniser. -/
def specTokenizeC7 (text : String) : List String :=
  (wordRunsP isAlnumChar (lowerStr text).data).filter
    (fun w => decide (w ∉ ENGLISH_STOP_WORDS))

/-- The engine's unigram tokeniser (stop words fixed, lowercase), the
subject of claim C7. -/
def engineTokenize (text : String) : List String :=
  tfidfTokenize engineCfg text

def c7Input : String := "buffer_overflow in worker"

/-! ### Claim C7: the tokeniser -/

theorem modifyHead_modifyHead {α : Type} (f g : α → α) (l : List α) :
    List.modifyHead f (List.modifyHead g l) = List.modifyHead (fun x => f (g x)) l := by
  cases l <;> simp

theorem modifyHead_of_id {α : Type} (f : α → α) (l : List α) (h : ∀ x, f x = x) :
    List.modifyHead f l = l := by
  cases l <;> simp [h]

/-- The regex scanner agrees, piecewise, with `splitOnP` of the negated
predicate followed by discarding empty pieces. -/
theorem wordRunsAux_splitOnP (p : Char → Bool) :
    ∀ (l acc : List Char),
      wordRunsAux p l acc =
        ((List.splitOnP (fun c => !p c) l).modifyHead (acc.reverse ++ ·)).filter
          (fun x => !x.isEmpty) := by
  intro l
  induction l with
  | nil =>
    intro acc
    cases acc <;>
      simp [wordRunsAux, List.splitOnP_nil, List.filter_cons, List.isEmpty_iff]
  | cons c cs ih =>
    intro acc
    by_cases hc : p c
    · have hstep : List.splitOnP (fun x => !p x) (c :: cs) =
          List.modifyHead (List.cons c) (List.splitOnP (fun x => !p x) cs) := by
        simp [List.splitOnP_cons, hc]
      rw [wordRunsAux, if_pos hc, ih (c :: acc), hstep, modifyHead_modifyHead]
      cases hS : List.splitOnP (fun x => !p x) cs with
      | nil => simp
      | cons h t => simp [List.modifyHead_cons, List.reverse_cons, List.append_assoc]
    · have hstep : List.splitOnP (fun x => !p x) (c :: cs) =
          [] :: List.splitOnP (fun x => !p x) cs := by
        simp [List.splitOnP_cons, hc]
      rw [wordRunsAux, if_neg hc, hstep]
      have ihnil := ih []
      rw [modifyHead_of_id _ _ (by intro x; simp)] at ihnil
      cases acc with
      | nil =>
        simp only [List.isEmpty_nil, if_true]
        rw [ihnil]
        cases hS : List.splitOnP (fun x => !p x) cs <;>
          simp [List.filter_cons]
      | cons a as =>
        rw [if_neg (by simp), ihnil]
        simp [List.filter_cons, List.isEmpty_iff]

/-- The scanner on a whole string: maximal nonempty word-character runs. -/
theorem wordRunsP_splitOnP (p : Char → Bool) (l : List Char) :
    wordRunsP p l =
      ((List.splitOnP (fun c => !p c) l).filter (fun x => !x.isEmpty)).map
        (fun x => (⟨x⟩ : String)) := by
  unfold wordRunsP
  rw [wordRunsAux_splitOnP p l [], modifyHead_of_id _ _ (by intro x; simp)]

/-- Claim C7 (counterexample).  The claim says tokenisation splits on
every character outside `[A-Za-z0-9]`; the code's regex `\b\w+\b`
treats the underscore (`\w`) as a word character, so
`"buffer_overflow in worker"` stays a single token where the claim's
tokeniser would produce `"buffer"` and `"overflow"`. -/
theorem c7_counterexample :
    engineTokenize c7Input ≠ specTokenizeC7 c7Input ∧
      engineTokenize c7Input = [⟨['b','u','f','f','e','r','_','o','v','e','r','f','l','o','w']⟩,
        ⟨['w','o','r','k','e','r']⟩] ∧
      specTokenizeC7 c7Input = [⟨['b','u','f','f','e','r']⟩, ⟨['o','v','e','r','f','l','o','w']⟩,
        ⟨['w','o','r','k','e','r']⟩] := by
  refine ⟨by decide, by decide, by decide⟩

/-- Claim C7 (amended).  For every input string the engine tokeniser
lowercases the text, splits it into the maximal nonempty runs of
characters of the class `[A-Za-z0-9_]` (Python's `\w`; the claim said
`[A-Za-z0-9]`, but the code also treats `_` as a word character), and
drops the fixed English stop words; it is deterministic, and empty
input yields the empty token sequence. -/
theorem c7_amended :
    ∀ s t : String,
      engineTokenize s =
        (((List.splitOnP (fun c => !isWordChar c) (lowerStr s).data).filter
            (fun x => !x.isEmpty)).map (fun x => (⟨x⟩ : String))).filter
          (fun w => decide (w ∉ ENGLISH_STOP_WORDS)) ∧
      (s = t → engineTokenize s = engineTokenize t) ∧
      engineTokenize emptyString = [] := by
  intro s t
  refine ⟨?_, fun h => by rw [h], by decide⟩
  have h := wordRunsP_splitOnP isWordChar (lowerStr s).data
  simp only [engineTokenize, tfidfTokenize, engineCfg, eq_self_iff_true, if_true] at h ⊢
  rw [h]

/-- Witness for the amended claim C7 at a concrete input. -/
theorem c7_witness : engineTokenize c7Input = engineTokenize c7Input :=
  (c7_amended c7Input c7Input).2.1 rfl

/-! ### Insertion-ordered association lists (model of CPython dicts) -/

/-- First value stored under key `k`. -/
def alookup {A : Type} : List (String × A) → String → Option A
  | [], _ => none
  | (k, v) :: t, k' => if k = k' then some v else alookup t k'

/-- Update the value under `k` in place (keeping its position), or append
a fresh binding: the semantics of assignment into a CPython dict. -/
def aset {A : Type} : List (String × A) → String → A → List (String × A)
  | [], k, v => [(k, v)]
  | (k', v') :: t, k, v => if k' = k then (k', v) :: t else (k', v') :: aset t k v

theorem alookup_aset {A : Type} (l : List (String × A)) (k : String) (v : A) (k' : String) :
    alookup (aset l k v) k' = if k = k' then some v else alookup l k' := by
  induction l with
  | nil => simp [aset, alookup]
  | cons h t ih =>
    obtain ⟨hk, hv⟩ := h
    by_cases h1 : hk = k
    · subst h1
      by_cases h2 : hk = k' <;> simp [aset, alookup, h2]
    · by_cases h2 : hk = k'
      · subst h2
        have : ¬ k = hk := fun h => h1 h.symm
        simp [aset, alookup, h1, this]
      · simp [aset, alookup, h1, h2, ih]

/-! ### The feedback loop (`algorithms/feedback_loop.py`), memory-only mode

The claims about the feedback loop all concern the in-memory path
(`use_database = False`, i.e. no Mongo connection); the state below is
the quadruple of `defaultdict` caches plus the length of
`feedback_history`.  Numeric fields live in `K`; the UCB weight update
calls `np.sqrt` and `np.log`, passed in as `sq`/`lg`. -/

/-- `query_doc_stats` entry. -/
structure QDStat (K : Type) where
  correct : Nat
  incorrect : Nat
  total : Nat
  success_rate : K

/-- `doc_stats` entry. -/
structure DocStat (K : Type) where
  times_shown : Nat
  times_correct : Nat
  accuracy : K

/-- `query_patterns` entry. -/
structure QueryPat (K : Type) where
  count : Nat
  avg_confidence : K
  best_doc : Option String
  best_doc_count : Nat

/-- `engine_stats` entry. -/
structure EngStat (K : Type) where
  predictions : Nat
  correct : Nat
  incorrect : Nat
  accuracy : K
  weight : K

/-- The in-memory state of a `FeedbackLoop`. -/
structure FLState (K : Type) where
  query_doc_stats : List (String × QDStat K)
  doc_stats : List (String × DocStat K)
  query_patterns : List (String × QueryPat K)
  engine_stats : List (String × EngStat K)
  history_len : Nat

section FeedbackLoop

variable {K : Type} [LinearOrderedField K]

/-- Defaults of the `defaultdict` factories. -/
def qdDefault : QDStat K := ⟨0, 0, 0, 1/2⟩

def docDefault : DocStat K := ⟨0, 0, 1/2⟩

def patDefault : QueryPat K := ⟨0, 0, none, 0⟩

def engDefault : EngStat K := ⟨0, 0, 0, 1/2, 1⟩

/-- The empty state of `FeedbackLoop.__init__`. -/
def initFL : FLState K := ⟨[], [], [], [], 0⟩

/-- The engine constructs its loop with `learning_rate=0.1`,
`confidence_boost=5.0`, `confidence_penalty=10.0`. -/
def flAlpha : K := 1/10

def flBoost : K := 5

def flPenalty : K := 10

/-- `FeedbackLoop._normalize_query`: `' '.join(query.lower().split())`. -/
def normalizeQuery (q : String) : String :=
  String.intercalate spaceStr (pySplitWs (lowerStr q))

def keySep : String := "||"

/-- The composite key `f"{normalized_query}||{predicted_doc}"`. -/
def qdKey (nq doc : String) : String := nq ++ keySep ++ doc

/-- `FeedbackLoop._compute_query_similarity`: Jaccard similarity of the
lowercased word sets of the two queries. -/
def computeQuerySimilarity (q1 q2 : String) : K :=
  let w1 := (pySplitWs (lowerStr q1)).dedup
  let w2 := (pySplitWs (lowerStr q2)).dedup
  if w1 = [] ∨ w2 = [] then 0
  else
    let inter := (w1.filter (fun w => decide (w ∈ w2))).length
    let uni := (w1 ∪ w2).length
    if 0 < uni then (inter : K) / (uni : K) else 0

/-- Python truthiness of the `best_doc` field (`None` and `""` are falsy). -/
def pyTruthy : Option String → Bool
  | none => false
  | some s => decide (s ≠ emptyString)

/-- `FeedbackLoop.record_prediction` (memory-only path).  Appends nothing
to `feedback_history`; bumps the exposure counters and the pattern's
running mean confidence. -/
def recordPrediction (S : FLState K) (q doc : String) (conf : K) (engine : String) :
    FLState K :=
  let nq := normalizeQuery q
  let key := qdKey nq doc
  let qd := (alookup S.query_doc_stats key).getD qdDefault
  let ds := (alookup S.doc_stats doc).getD docDefault
  let es := (alookup S.engine_stats engine).getD engDefault
  let pat := (alookup S.query_patterns nq).getD patDefault
  let cnt := pat.count + 1
  { S with
    query_doc_stats := aset S.query_doc_stats key { qd with total := qd.total + 1 },
    doc_stats := aset S.doc_stats doc { ds with times_shown := ds.times_shown + 1 },
    engine_stats := aset S.engine_stats engine { es with predictions := es.predictions + 1 },
    query_patterns := aset S.query_patterns nq
      { pat with
        count := cnt,
        avg_confidence := (pat.avg_confidence * ((cnt : K) - 1) + conf) / (cnt : K) } }

/-- `FeedbackLoop.record_feedback` (memory-only path).  `lg`/`sq` stand
for `np.log`/`np.sqrt` in the UCB weight update. -/
def recordFeedback (lg sq : K → K) (S : FLState K)
    (q pred actual : String) (_conf : K) (engine : String) : FLState K :=
  let nq := normalizeQuery q
  let isCorrect := pred = actual
  let key := qdKey nq pred
  let qd0 := (alookup S.query_doc_stats key).getD qdDefault
  let qd1 := if isCorrect then { qd0 with correct := qd0.correct + 1 }
    else { qd0 with incorrect := qd0.incorrect + 1 }
  let sr := flAlpha * (if isCorrect then (1 : K) else 0) + (1 - flAlpha) * qd0.success_rate
  let qd2 := { qd1 with success_rate := sr }
  let ds0 := (alookup S.doc_stats pred).getD docDefault
  let ds1 := if isCorrect then { ds0 with times_correct := ds0.times_correct + 1 } else ds0
  let ds2 := if 0 < ds1.times_shown then
      { ds1 with accuracy := (ds1.times_correct : K) / (ds1.times_shown : K) } else ds1
  let es0 := (alookup S.engine_stats engine).getD engDefault
  let es1 := if isCorrect then { es0 with correct := es0.correct + 1 }
    else { es0 with incorrect := es0.incorrect + 1 }
  let total := es1.correct + es1.incorrect
  let es2 := if 0 < total then
      { es1 with
        accuracy := (es1.correct : K) / (total : K),
        weight := (es1.correct : K) / (total : K) +
          sq (2 * lg ((total : K) + 1) / ((total : K) + 1)) }
    else es1
  let pats := if isCorrect then
      let p0 := (alookup S.query_patterns nq).getD patDefault
      let p1 := if p0.best_doc = some actual then
          { p0 with best_doc_count := p0.best_doc_count + 1 }
        else if p0.best_doc = none ∨ p0.best_doc_count = 0 then
          { p0 with best_doc := some actual, best_doc_count := 1 }
        else p0
      aset S.query_patterns nq p1
    else S.query_patterns
  { query_doc_stats := aset S.query_doc_stats key qd2,
    doc_stats := aset S.doc_stats pred ds2,
    query_patterns := pats,
    engine_stats := aset S.engine_stats engine es2,
    history_len := S.history_len + 1 }

/-- `FeedbackLoop._get_similar_query_boost` (called with the normalised
query): up to `+5` from the best Jaccard similarity over patterns whose
`best_doc` equals `doc` with `best_doc_count ≥ 2`. -/
def similarQueryBoost (S : FLState K) (q doc : String) : K :=
  let maxSim := S.query_patterns.foldl
    (fun m p =>
      if p.2.best_doc = some doc ∧ 2 ≤ p.2.best_doc_count then
        max m (computeQuerySimilarity q p.1)
      else m) 0
  if maxSim > 1/2 then 5 * (maxSim - 1/2) * 2 else 0

/-- `FeedbackLoop.adjust_confidence` (memory-only path). -/
def adjustConfidence (S : FLState K) (q doc : String) (conf : K) (engine : String) : K :=
  let nq := normalizeQuery q
  let key := qdKey nq doc
  let a1 := match alookup S.query_doc_stats key with
    | some st =>
      if 0 < st.total then
        if st.success_rate > 7/10 then conf + flBoost * (st.success_rate - 1/2)
        else if st.success_rate < 3/10 then conf - flPenalty * (1/2 - st.success_rate)
        else conf
      else conf
    | none => conf
  let a2 := match alookup S.doc_stats doc with
    | some ds => if 3 ≤ ds.times_shown then a1 + (ds.accuracy - 1/2) * 5 else a1
    | none => a1
  let a3 := match alookup S.engine_stats engine with
    | some es => if 5 ≤ es.predictions then a2 * (4/5 + 2/5 * es.accuracy) else a2
    | none => a2
  let a4 := a3 + similarQueryBoost S nq doc
  max 0 (min 100 a4)

/-- The fuzzy-similar scan of `get_best_document_for_query`: the loop over
all patterns keeping the best `similarity * best_doc_count` among
patterns with a truthy `best_doc`, `best_doc_count ≥ 2` and
`similarity > 0.6`.  Note it compares against the raw (pre-normalised)
query, exactly as the source does. -/
def fuzzyStep (q : String) (acc : Option String × K) (p : String × QueryPat K) :
    Option String × K :=
  if pyTruthy p.2.best_doc ∧ 2 ≤ p.2.best_doc_count then
    let sim : K := computeQuerySimilarity q p.1
    let score := sim * (p.2.best_doc_count : K)
    if acc.2 < score ∧ 3/5 < sim then (p.2.best_doc, score) else acc
  else acc

def fuzzyScan (q : String) (pats : List (String × QueryPat K)) : Option String × K :=
  pats.foldl (fuzzyStep q) (none, 0)

/-- `FeedbackLoop.get_best_document_for_query` (memory-only path). -/
def getBestDocumentForQuery (S : FLState K) (q : String) : Option (String × K) :=
  let nq := normalizeQuery q
  let exact : Option (String × K) :=
    match alookup S.query_patterns nq with
    | some p =>
      match p.best_doc with
      | some d =>
        if d ≠ emptyString ∧ 2 ≤ p.best_doc_count then
          some (d, 95 + min 5 (p.best_doc_count : K))
        else none
      | none => none
    | none => none
  match exact with
  | some r => some r
  | none =>
    match fuzzyScan q S.query_patterns with
    | (some d, s) => if pyTruthy (some d) then some (d, 80 + min 15 (s * 5)) else none
    | (none, _) => none

/-- Observation of `query_doc_stats` through the `defaultdict` lens. -/
def qdView (S : FLState K) (key : String) : QDStat K :=
  (alookup S.query_doc_stats key).getD qdDefault

def docView (S : FLState K) (doc : String) : DocStat K :=
  (alookup S.doc_stats doc).getD docDefault

def patView (S : FLState K) (nq : String) : QueryPat K :=
  (alookup S.query_patterns nq).getD patDefault

def engView (S : FLState K) (engine : String) : EngStat K :=
  (alookup S.engine_stats engine).getD engDefault

theorem getD_alookup_aset {A : Type} (l : List (String × A)) (k : String) (v : A)
    (k' : String) (d : A) :
    (alookup (aset l k v) k').getD d = if k = k' then v else (alookup l k').getD d := by
  rw [alookup_aset]
  by_cases h : k = k' <;> simp [h]

end FeedbackLoop

/-! ### Claim C4: `adjust_confidence` is bounded in [0, 100] -/

/-- Claim C4 (confirmed).  For every state (reachable or not), every
query, document, engine, and every raw confidence (also outside
[0, 100]), the memory-path `adjust_confidence` returns a value in
[0, 100]: the function ends with `max(0.0, min(100.0, adjusted))`. -/
theorem c4_adjust_confidence_bounds (S : FLState ℝ) (q doc : String) (conf : ℝ)
    (engine : String) :
    0 ≤ adjustConfidence S q doc conf engine ∧ adjustConfidence S q doc conf engine ≤ 100 := by
  simp only [adjustConfidence]
  exact ⟨le_max_left _ _, max_le (by norm_num) (min_le_left _ _)⟩

/-! ### Claim C3: what `record_prediction` touches -/

/-- Claim C3 (amended).  `record_prediction` appends nothing to the
in-memory feedback history and leaves every correctness aggregate
unchanged (`QueryDocStats.correct/incorrect/success_rate`,
`DocumentStats.times_correct/accuracy`,
`EngineStats.correct/incorrect/accuracy/weight`,
`QueryPattern.best_doc/best_doc_count`), but — contrary to the claim
as stated — it does bump the exposure counters: `QueryDocStats.total`,
`DocumentStats.times_shown`, `EngineStats.predictions`, and
`QueryPattern.count`, with `avg_confidence` updated to the running
mean. -/
theorem c3_amended (S : FLState ℝ) (q doc : String) (conf : ℝ) (engine k : String) :
    let S' := recordPrediction S q doc conf engine
    let nq := normalizeQuery q
    ((qdView S' k).correct = (qdView S k).correct ∧
      (qdView S' k).incorrect = (qdView S k).incorrect ∧
      (qdView S' k).success_rate = (qdView S k).success_rate ∧
      (qdView S' k).total = (qdView S k).total + (if qdKey nq doc = k then 1 else 0)) ∧
    ((docView S' k).times_correct = (docView S k).times_correct ∧
      (docView S' k).accuracy = (docView S k).accuracy ∧
      (docView S' k).times_shown = (docView S k).times_shown + (if doc = k then 1 else 0)) ∧
    ((engView S' k).correct = (engView S k).correct ∧
      (engView S' k).incorrect = (engView S k).incorrect ∧
      (engView S' k).accuracy = (engView S k).accuracy ∧
      (engView S' k).weight = (engView S k).weight ∧
      (engView S' k).predictions = (engView S k).predictions + (if engine = k then 1 else 0)) ∧
    ((patView S' k).best_doc = (patView S k).best_doc ∧
      (patView S' k).best_doc_count = (patView S k).best_doc_count ∧
      (patView S' k).count = (patView S k).count + (if nq = k then 1 else 0) ∧
      (patView S' k).avg_confidence = (if nq = k then
        ((patView S k).avg_confidence * ((patView S k).count : ℝ) + conf) /
          (((patView S k).count : ℝ) + 1)
        else (patView S k).avg_confidence)) ∧
    S'.history_len = S.history_len := by
  intro S' nq
  have hqd : qdView S' k = if qdKey nq doc = k then
      { qdView S (qdKey nq doc) with total := (qdView S (qdKey nq doc)).total + 1 }
      else qdView S k := by
    simp only [S', recordPrediction, qdView, nq]
    rw [getD_alookup_aset]
  have hds : docView S' k = if doc = k then
      { docView S doc with times_shown := (docView S doc).times_shown + 1 }
      else docView S k := by
    simp only [S', recordPrediction, docView, nq]
    rw [getD_alookup_aset]
  have hes : engView S' k = if engine = k then
      { engView S engine with predictions := (engView S engine).predictions + 1 }
      else engView S k := by
    simp only [S', recordPrediction, engView, nq]
    rw [getD_alookup_aset]
  have hpat : patView S' k = if nq = k then
      { patView S nq with
        count := (patView S nq).count + 1,
        avg_confidence := ((patView S nq).avg_confidence *
            (((patView S nq).count + 1 : ℕ) - 1 : ℝ) + conf) /
          ((((patView S nq).count + 1 : ℕ)) : ℝ) }
      else patView S k := by
    simp only [S', recordPrediction, patView, nq]
    rw [getD_alookup_aset]
  refine ⟨⟨?_, ?_, ?_, ?_⟩, ⟨?_, ?_, ?_⟩, ⟨?_, ?_, ?_, ?_, ?_⟩, ⟨?_, ?_, ?_, ?_⟩, ?_⟩ <;>
    first
      | (rw [hqd]; by_cases h : qdKey nq doc = k
         · subst h; simp
         · simp [h])
      | (rw [hds]; by_cases h : doc = k
         · subst h; simp
         · simp [h])
      | (rw [hes]; by_cases h : engine = k
         · subst h; simp
         · simp [h])
      | (rw [hpat]; by_cases h : nq = k
         · subst h; push_cast; simp
         · simp [h])
      | rfl

def c3Query : String := "q"

def c3Doc : String := "d"

def c3Engine : String := "e"

def c3Key : String := "q||d"

/-- Claim C3 (counterexample).  The claim says `record_prediction`
updates no aggregates; but from the empty state one call bumps
`QueryDocStats.total` (and `QueryPattern.count`) from 0 to 1. -/
theorem c3_counterexample :
    (qdView (recordPrediction (initFL (K := ℝ)) c3Query c3Doc 50 c3Engine) c3Key).total = 1 ∧
      (qdView (initFL (K := ℝ)) c3Key).total = 0 ∧
      (patView (recordPrediction (initFL (K := ℝ)) c3Query c3Doc 50 c3Engine) c3Query).count = 1 ∧
      (patView (initFL (K := ℝ)) c3Query).count = 0 := by
  have hk : qdKey (normalizeQuery c3Query) c3Doc = c3Key := by decide
  have hq : normalizeQuery c3Query = c3Query := by decide
  refine ⟨?_, rfl, ?_, rfl⟩
  · simp only [recordPrediction, qdView]
    rw [getD_alookup_aset, if_pos hk]
    simp [initFL, alookup, qdDefault]
  · simp only [recordPrediction, patView]
    rw [getD_alookup_aset, if_pos hq]
    simp [initFL, alookup, patDefault]

/-! ### Claim C2: the exact-pattern shortcut -/

/-- How `record_feedback` transforms the `query_patterns` cache
(projection of the definition). -/
theorem recordFeedback_patterns {K : Type} [LinearOrderedField K] (lg sq : K → K)
    (S : FLState K) (q pred actual : String) (conf : K) (engine : String) :
    (recordFeedback lg sq S q pred actual conf engine).query_patterns =
      if pred = actual then
        aset S.query_patterns (normalizeQuery q)
          (let p0 := (alookup S.query_patterns (normalizeQuery q)).getD patDefault
           if p0.best_doc = some actual then { p0 with best_doc_count := p0.best_doc_count + 1 }
           else if p0.best_doc = none ∨ p0.best_doc_count = 0 then
             { p0 with best_doc := some actual, best_doc_count := 1 }
           else p0)
      else S.query_patterns := rfl

/-- Claim C2 (amended).  In memory-only mode, for every query `q` and
every *non-empty* document path `d` (the amendment): starting from the
initial state, after exactly two `record_feedback` calls for `q` with
`predicted == actual == d`, `get_best_document_for_query q` returns
`(d, 97)`, so confidence is in [97, 100]; and, in general, whenever the
QueryPattern for `q` holds `best_doc = d` with `best_doc_count ≥ 2`,
it returns `(d, 95 + min(5, best_doc_count))`, which lies in
[97, 100]. -/
theorem c2_amended (q d : String) (c c' : ℝ) (e e' : String) (S : FLState ℝ)
    (p : QueryPat ℝ)
    (hd : d ≠ emptyString)
    (hp : alookup S.query_patterns (normalizeQuery q) = some p)
    (hbd : p.best_doc = some d)
    (hcnt : 2 ≤ p.best_doc_count) :
    getBestDocumentForQuery S q = some (d, 95 + min 5 (p.best_doc_count : ℝ)) ∧
      (97 : ℝ) ≤ 95 + min 5 (p.best_doc_count : ℝ) ∧
      95 + min 5 (p.best_doc_count : ℝ) ≤ 100 ∧
      getBestDocumentForQuery
        (recordFeedback Real.log Real.sqrt
          (recordFeedback Real.log Real.sqrt (initFL (K := ℝ)) q d d c e) q d d c' e') q =
        some (d, 97) := by
  refine ⟨?_, ?_, ?_, ?_⟩
  · simp only [getBestDocumentForQuery, hp, hbd]
    rw [if_pos ⟨hd, hcnt⟩]
  · have h2 : (2 : ℝ) ≤ (p.best_doc_count : ℝ) := by exact_mod_cast hcnt
    have : (2 : ℝ) ≤ min 5 (p.best_doc_count : ℝ) := le_min (by norm_num) h2
    linarith
  · have : min 5 ((p.best_doc_count : ℕ) : ℝ) ≤ 5 := min_le_left _ _
    linarith
  · have hpat1 : (recordFeedback Real.log Real.sqrt (initFL (K := ℝ)) q d d c e).query_patterns =
        [(normalizeQuery q, (⟨0, 0, some d, 1⟩ : QueryPat ℝ))] := by
      rw [recordFeedback_patterns]
      simp [initFL, alookup, aset, patDefault]
    have hpat2 : (recordFeedback Real.log Real.sqrt
        (recordFeedback Real.log Real.sqrt (initFL (K := ℝ)) q d d c e) q d d c' e').query_patterns =
        [(normalizeQuery q, (⟨0, 0, some d, 2⟩ : QueryPat ℝ))] := by
      rw [recordFeedback_patterns, hpat1]
      simp [alookup, aset]
    simp only [getBestDocumentForQuery]
    rw [hpat2]
    simp [alookup, hd]
    norm_num [min_def]

def c2CexQuery : String := "q"

def c2CexEngine : String := "e"

/-- Claim C2 (counterexample).  The claim quantifies over *every*
document `d`; for the empty-string document the code's Python
truthiness test `if pattern['best_doc']` rejects the stored pattern, so
after two matching corrections `get_best_document_for_query` returns
`None` instead of `(d, confidence ≥ 97)`. -/
theorem c2_counterexample :
    getBestDocumentForQuery
      (recordFeedback Real.log Real.sqrt
        (recordFeedback Real.log Real.sqrt (initFL (K := ℝ)) c2CexQuery emptyString emptyString
          50 c2CexEngine)
        c2CexQuery emptyString emptyString 50 c2CexEngine) c2CexQuery = none ∧
      (patView
        (recordFeedback Real.log Real.sqrt
          (recordFeedback Real.log Real.sqrt (initFL (K := ℝ)) c2CexQuery emptyString emptyString
            50 c2CexEngine)
          c2CexQuery emptyString emptyString 50 c2CexEngine)
        (normalizeQuery c2CexQuery)).best_doc_count = 2 := by
  have hpat1 : (recordFeedback Real.log Real.sqrt (initFL (K := ℝ)) c2CexQuery emptyString
      emptyString 50 c2CexEngine).query_patterns =
      [(normalizeQuery c2CexQuery, (⟨0, 0, some emptyString, 1⟩ : QueryPat ℝ))] := by
    rw [recordFeedback_patterns]
    simp [initFL, alookup, aset, patDefault]
  have hpat2 : (recordFeedback Real.log Real.sqrt
      (recordFeedback Real.log Real.sqrt (initFL (K := ℝ)) c2CexQuery emptyString emptyString
        50 c2CexEngine)
      c2CexQuery emptyString emptyString 50 c2CexEngine).query_patterns =
      [(normalizeQuery c2CexQuery, (⟨0, 0, some emptyString, 2⟩ : QueryPat ℝ))] := by
    rw [recordFeedback_patterns, hpat1]
    simp [alookup, aset]
  constructor
  · simp only [getBestDocumentForQuery]
    rw [hpat2]
    simp [alookup, fuzzyScan, fuzzyStep, pyTruthy]
  · simp only [patView]
    rw [hpat2]
    simp [alookup]

def c2wQuery : String := "network error"

def c2wDoc : String := "docs/net.md"

def c2wPat : QueryPat ℝ := ⟨4, 0, some c2wDoc, 3⟩

def c2wState : FLState ℝ := ⟨[], [], [(c2wQuery, c2wPat)], [], 0⟩

/-- Witness for the amended claim C2 at a concrete state. -/
theorem c2_witness :
    getBestDocumentForQuery c2wState c2wQuery =
      some (c2wDoc, 95 + min 5 (c2wPat.best_doc_count : ℝ)) :=
  (c2_amended c2wQuery c2wDoc 50 60 c2CexEngine c2CexEngine c2wState c2wPat
    (by decide)
    (by rw [show normalizeQuery c2wQuery = c2wQuery from by decide]
        simp [c2wState, alookup])
    rfl (by norm_num [c2wPat])).1

/-! ### Claim C10: the fuzzy-similar fallback of `get_best_document_for_query` -/

theorem pyTruthy_iff (o : Option String) :
    pyTruthy o = true ↔ ∃ d, o = some d ∧ d ≠ emptyString := by
  cases o with
  | none => simp [pyTruthy]
  | some s => simp [pyTruthy]

/-- Once the fuzzy scan holds a candidate, it never loses it. -/
theorem fuzzyScan_preserves_some (q : String) :
    ∀ (l : List (String × QueryPat ℝ)) (acc : Option String × ℝ),
      acc.1 ≠ none → (l.foldl (fuzzyStep q) acc).1 ≠ none := by
  intro l
  induction l with
  | nil => intro acc h; exact h
  | cons p t ih =>
    intro acc h
    simp only [List.foldl_cons]
    apply ih
    simp only [fuzzyStep]
    split_ifs with h1 h2
    · rcases (pyTruthy_iff p.2.best_doc).1 h1.1 with ⟨d, hd, _⟩
      simp [hd]
    · exact h
    · exact h

/-- Whatever the fuzzy scan returns either is the untouched accumulator or
comes from a qualifying pattern of the list, with the score
`similarity * best_doc_count` of that pattern. -/
theorem fuzzyScan_characterise (q : String) :
    ∀ (l : List (String × QueryPat ℝ)) (acc : Option String × ℝ),
      l.foldl (fuzzyStep q) acc = acc ∨
        ∃ pq pd, (pq, pd) ∈ l ∧ pyTruthy pd.best_doc = true ∧ 2 ≤ pd.best_doc_count ∧
          (3/5 : ℝ) < computeQuerySimilarity q pq ∧
          l.foldl (fuzzyStep q) acc =
            (pd.best_doc, computeQuerySimilarity q pq * (pd.best_doc_count : ℝ)) := by
  intro l
  induction l with
  | nil => intro acc; exact Or.inl rfl
  | cons p t ih =>
    intro acc
    simp only [List.foldl_cons]
    by_cases h1 : pyTruthy p.2.best_doc = true ∧ 2 ≤ p.2.best_doc_count
    · by_cases h2 : acc.2 < computeQuerySimilarity q p.1 * (p.2.best_doc_count : ℝ) ∧
          (3/5 : ℝ) < computeQuerySimilarity q p.1
      · have hstep : fuzzyStep q acc p =
            (p.2.best_doc, computeQuerySimilarity q p.1 * (p.2.best_doc_count : ℝ)) := by
          simp only [fuzzyStep]
          rw [if_pos h1, if_pos h2]
        rw [hstep]
        rcases ih (p.2.best_doc, computeQuerySimilarity q p.1 * (p.2.best_doc_count : ℝ)) with
          h | ⟨pq, pd, hmem, ha, hb, hc, hres⟩
        · exact Or.inr ⟨p.1, p.2, List.mem_cons_self _ _, h1.1, h1.2, h2.2, h⟩
        · exact Or.inr ⟨pq, pd, List.mem_cons_of_mem _ hmem, ha, hb, hc, hres⟩
      · have hstep : fuzzyStep q acc p = acc := by
          simp only [fuzzyStep]
          rw [if_pos h1, if_neg h2]
        rw [hstep]
        rcases ih acc with h | ⟨pq, pd, hmem, ha, hb, hc, hres⟩
        · exact Or.inl h
        · exact Or.inr ⟨pq, pd, List.mem_cons_of_mem _ hmem, ha, hb, hc, hres⟩
    · have hstep : fuzzyStep q acc p = acc := by
        simp only [fuzzyStep]
        rw [if_neg h1]
      rw [hstep]
      rcases ih acc with h | ⟨pq, pd, hmem, ha, hb, hc, hres⟩
      · exact Or.inl h
      · exact Or.inr ⟨pq, pd, List.mem_cons_of_mem _ hmem, ha, hb, hc, hres⟩

/-- A qualifying pattern guarantees the scan ends with a candidate. -/
theorem fuzzyScan_progress (q : String) :
    ∀ (l : List (String × QueryPat ℝ)) (acc : Option String × ℝ),
      acc.1 = none → acc.2 = 0 →
      (∃ pq pd, (pq, pd) ∈ l ∧ pyTruthy pd.best_doc = true ∧ 2 ≤ pd.best_doc_count ∧
        (3/5 : ℝ) < computeQuerySimilarity q pq) →
      (l.foldl (fuzzyStep q) acc).1 ≠ none := by
  intro l
  induction l with
  | nil =>
    intro acc _ _ hex
    rcases hex with ⟨pq, pd, hmem, _⟩
    exact absurd hmem (List.not_mem_nil _)
  | cons p t ih =>
    intro acc hn hz hex
    simp only [List.foldl_cons]
    by_cases hfire : (pyTruthy p.2.best_doc = true ∧ 2 ≤ p.2.best_doc_count) ∧
        acc.2 < computeQuerySimilarity q p.1 * (p.2.best_doc_count : ℝ) ∧
        (3/5 : ℝ) < computeQuerySimilarity q p.1
    · have hstep : fuzzyStep q acc p =
          (p.2.best_doc, computeQuerySimilarity q p.1 * (p.2.best_doc_count : ℝ)) := by
        simp only [fuzzyStep]
        rw [if_pos hfire.1, if_pos hfire.2]
      rw [hstep]
      apply fuzzyScan_preserves_some
      rcases (pyTruthy_iff p.2.best_doc).1 hfire.1.1 with ⟨d, hd, _⟩
      simp [hd]
    · have hstep : fuzzyStep q acc p = acc := by
        simp only [fuzzyStep]
        split_ifs with h1 h2
        · exact absurd ⟨h1, h2⟩ hfire
        · rfl
        · rfl
      rw [hstep]
      rcases hex with ⟨pq, pd, hmem, ha, hb, hc⟩
      rcases List.mem_cons.1 hmem with heq | hmem'
      · exfalso
        apply hfire
        rw [← heq]
        refine ⟨⟨ha, hb⟩, ?_, hc⟩
        rw [hz]
        have hsim : (0 : ℝ) < computeQuerySimilarity q pq := lt_trans (by norm_num) hc
        have hcnt : (2 : ℝ) ≤ (pd.best_doc_count : ℝ) := by exact_mod_cast hb
        nlinarith
      · exact ih acc hn hz ⟨pq, pd, hmem', ha, hb, hc⟩

/-- Claim C10 (amended).  In memory-only mode, when the query has no
QueryPattern of its own but some recorded pattern has a *non-empty*
`best_doc` (the amendment: Python truthiness rejects an empty-string
`best_doc`), `best_doc_count ≥ 2`, and word-set Jaccard similarity to
the raw query strictly above 0.6, `get_best_document_for_query`
returns the `best_doc` of such a pattern (the score-maximising one),
with confidence `80 + min(15, similarity * best_doc_count * 5)`, which
is strictly greater than 80 and at most 95 — below the ≥ 97 confidence
of the exact-pattern shortcut. -/
theorem c10_amended (S : FLState ℝ) (q : String)
    (hq : alookup S.query_patterns (normalizeQuery q) = none)
    (hex : ∃ pq pd, (pq, pd) ∈ S.query_patterns ∧ pyTruthy pd.best_doc = true ∧
      2 ≤ pd.best_doc_count ∧ (3/5 : ℝ) < computeQuerySimilarity q pq) :
    ∃ pq pd d, (pq, pd) ∈ S.query_patterns ∧ pd.best_doc = some d ∧ d ≠ emptyString ∧
      2 ≤ pd.best_doc_count ∧ (3/5 : ℝ) < computeQuerySimilarity q pq ∧
      getBestDocumentForQuery S q =
        some (d, 80 + min 15 (computeQuerySimilarity q pq * (pd.best_doc_count : ℝ) * 5)) ∧
      (80 : ℝ) < 80 + min 15 (computeQuerySimilarity q pq * (pd.best_doc_count : ℝ) * 5) ∧
      80 + min 15 (computeQuerySimilarity q pq * (pd.best_doc_count : ℝ) * 5) ≤ 95 := by
  have hne : (fuzzyScan q S.query_patterns).1 ≠ none :=
    fuzzyScan_progress q S.query_patterns (none, 0) rfl rfl hex
  rcases fuzzyScan_characterise q S.query_patterns (none, 0) with h | h
  · exfalso
    rw [fuzzyScan, h] at hne
    exact hne rfl
  · rcases h with ⟨pq, pd, hmem, ha, hb, hc, hres⟩
    rcases (pyTruthy_iff pd.best_doc).1 ha with ⟨d, hd, hdne⟩
    have hscan : fuzzyScan q S.query_patterns =
        (some d, computeQuerySimilarity q pq * (pd.best_doc_count : ℝ)) := by
      rw [fuzzyScan, hres, hd]
    have hsim : (0 : ℝ) < computeQuerySimilarity q pq := lt_trans (by norm_num) hc
    have hcnt : (2 : ℝ) ≤ (pd.best_doc_count : ℝ) := by exact_mod_cast hb
    have hscore : (6 : ℝ) < computeQuerySimilarity q pq * (pd.best_doc_count : ℝ) * 5 := by
      nlinarith
    refine ⟨pq, pd, d, hmem, hd, hdne, hb, hc, ?_, ?_, ?_⟩
    · simp only [getBestDocumentForQuery, hq]
      rw [hscan]
      simp only [pyTruthy, hdne]
      rw [if_pos (by simp [hdne])]
    · have : (0 : ℝ) < min 15 (computeQuerySimilarity q pq * (pd.best_doc_count : ℝ) * 5) :=
        lt_min (by norm_num) (lt_trans (by norm_num) hscore)
      linarith
    · have : min 15 (computeQuerySimilarity q pq * (pd.best_doc_count : ℝ) * 5) ≤ 15 :=
        min_le_left _ _
      linarith

def c10PatKey : String := "p"

def c10Query : String := "p p"

def c10State : FLState ℝ :=
  ⟨[], [], [(c10PatKey, (⟨2, 0, some emptyString, 2⟩ : QueryPat ℝ))], [], 0⟩

/-- Claim C10 (counterexample).  A recorded pattern with
`best_doc_count = 2` and Jaccard similarity 1 to the query exists
(reachable by two corrections whose `actual_doc` is the empty string),
yet `get_best_document_for_query` returns `None`: the claim as stated
promises the pattern's `best_doc` with confidence above 80. -/
theorem c10_counterexample :
    alookup (c10State).query_patterns (normalizeQuery c10Query) = none ∧
      (2 ≤ ((⟨2, 0, some emptyString, 2⟩ : QueryPat ℝ)).best_doc_count) ∧
      ((3/5 : ℝ) < computeQuerySimilarity c10Query c10PatKey) ∧
      getBestDocumentForQuery c10State c10Query = none := by
  have hnq : normalizeQuery c10Query = c10Query := by decide
  have hlook : alookup [(c10PatKey, (⟨2, 0, some emptyString, 2⟩ : QueryPat ℝ))] c10Query =
      none := by
    simp only [alookup]
    rw [if_neg (show ¬ (c10PatKey = c10Query) from by decide)]
  have hsim : computeQuerySimilarity (K := ℝ) c10Query c10PatKey = 1 := by
    have h1 : (pySplitWs (lowerStr c10Query)).dedup = [c10PatKey] := by decide
    have h2 : (pySplitWs (lowerStr c10PatKey)).dedup = [c10PatKey] := by decide
    have h3 : (([c10PatKey] : List String).filter
        (fun w => decide (w ∈ ([c10PatKey] : List String)))).length = 1 := by decide
    have h4 : (([c10PatKey] : List String) ∪ [c10PatKey]).length = 1 := by decide
    simp only [computeQuerySimilarity, h1, h2, h3, h4]
    rw [if_neg (by decide), if_pos (by norm_num)]
    norm_num
  refine ⟨?_, by norm_num, by rw [hsim]; norm_num, ?_⟩
  · rw [hnq]
    simpa only [c10State] using hlook
  · simp only [getBestDocumentForQuery, c10State]
    rw [hnq, hlook]
    simp [fuzzyScan, fuzzyStep, pyTruthy]

def c10wDoc : String := "docs/a.md"

def c10wPatKey : String := "alpha beta"

def c10wQuery : String := "alpha beta gamma"

def c10wState : FLState ℝ :=
  ⟨[], [], [(c10wPatKey, (⟨2, 0, some c10wDoc, 2⟩ : QueryPat ℝ))], [], 0⟩

/-- Witness for the amended claim C10 at a concrete state: the pattern
`"alpha beta"` (Jaccard 2/3 to the query) answers for the unseen query
`"alpha beta gamma"`. -/
theorem c10_witness :
    ∃ pq pd d, (pq, pd) ∈ (c10wState).query_patterns ∧ pd.best_doc = some d ∧
      d ≠ emptyString ∧ 2 ≤ pd.best_doc_count ∧
      (3/5 : ℝ) < computeQuerySimilarity c10wQuery pq ∧
      getBestDocumentForQuery c10wState c10wQuery =
        some (d, 80 + min 15 (computeQuerySimilarity c10wQuery pq * (pd.best_doc_count : ℝ) * 5)) ∧
      (80 : ℝ) < 80 + min 15 (computeQuerySimilarity c10wQuery pq * (pd.best_doc_count : ℝ) * 5) ∧
      80 + min 15 (computeQuerySimilarity c10wQuery pq * (pd.best_doc_count : ℝ) * 5) ≤ 95 :=
  c10_amended c10wState c10wQuery
    (by rw [show normalizeQuery c10wQuery = c10wQuery from by decide]
        simp only [c10wState, alookup]
        rw [if_neg (show ¬ (c10wPatKey = c10wQuery) from by decide)])
    ⟨c10wPatKey, ⟨2, 0, some c10wDoc, 2⟩, by simp [c10wState], by decide, by norm_num, by
      have h1 : (pySplitWs (lowerStr c10wQuery)).dedup = ["alpha", "beta", "gamma"] := by decide
      have h2 : (pySplitWs (lowerStr c10wPatKey)).dedup = ["alpha", "beta"] := by decide
      have h3 : ((["alpha", "beta", "gamma"] : List String).filter
          (fun w => decide (w ∈ (["alpha", "beta"] : List String)))).length = 2 := by decide
      have h4 : ((["alpha", "beta", "gamma"] : List String) ∪ ["alpha", "beta"]).length = 3 := by
        decide
      simp only [computeQuerySimilarity, h1, h2, h3, h4]
      rw [if_neg (by decide), if_pos (by norm_num)]
      norm_num⟩

/-! ### Claim C9: `MongoVectorStore.needs_reindex`

The store is modelled by its two collections that `needs_reindex`
consults: `documents` (rows `(doc_id, doc_path)`, with unique indices on
both columns) and `vectors` (rows `(document_id, vector_type)`, unique
on the pair).  `count_documents({'doc_path': {'$in': doc_paths}})`
becomes a filter-length, as does the vector count over the matched
document ids. -/

structure VecStore where
  documents : List (String × String)
  vectors : List (String × String)

/-- `MongoVectorStore.needs_reindex`. -/
def needsReindex (st : VecStore) (docPaths : List String) (vectorType : String) : Bool :=
  let matched := st.documents.filter (fun dc => decide (dc.2 ∈ docPaths))
  let docCount := matched.length
  let docIds : List String := matched.map (fun dc => dc.1)
  let vectorCount := (st.vectors.filter
    (fun v : String × String => decide (v.1 ∈ docIds) && decide (v.2 = vectorType))).length
  decide (docCount ≠ vectorCount) || decide (docCount ≠ docPaths.length)

/-- A current path that owns a persisted vector of the given type. -/
def hasVectorForPath (st : VecStore) (p vectorType : String) : Prop :=
  ∃ dc ∈ st.documents, dc.2 = p ∧ (dc.1, vectorType) ∈ st.vectors

instance (st : VecStore) (p vectorType : String) :
    Decidable (hasVectorForPath st p vectorType) := by
  unfold hasVectorForPath
  infer_instance

/-- The document paths having a persisted vector of the given type. -/
def vectorPaths (st : VecStore) (vectorType : String) : List String :=
  (st.documents.filter (fun dc => decide ((dc.1, vectorType) ∈ st.vectors))).map
    (fun dc => dc.2)

/-- Claim C9 exactly as stated: `needs_reindex` is true iff the set of
paths with a persisted vector differs from the set of current paths. -/
def c9ClaimStatement (st : VecStore) (docPaths : List String) (vectorType : String) : Prop :=
  needsReindex st docPaths vectorType = true ↔
    ¬ ((∀ p ∈ vectorPaths st vectorType, p ∈ docPaths) ∧
       (∀ p ∈ docPaths, p ∈ vectorPaths st vectorType))

def c9Store : VecStore := ⟨[("1", "a"), ("2", "b")], [("1", "t"), ("2", "t")]⟩

def c9Type : String := "t"

def c9Paths : List String := ["a"]

/-- Claim C9 (counterexample).  With vectors persisted for paths `a` and
`b` but current paths only `[a]`, the two sets differ (the claim
demands `needs_reindex = true`), yet the code only compares counts
restricted to the current paths and returns `false`: stale persisted
vectors never trigger a reindex. -/
theorem c9_counterexample :
    ¬ c9ClaimStatement c9Store c9Paths c9Type ∧
      needsReindex c9Store c9Paths c9Type = false ∧
      (⟨['b']⟩ : String) ∈ vectorPaths c9Store c9Type ∧
      (⟨['b']⟩ : String) ∉ c9Paths := by
  refine ⟨?_, by decide, by decide, by decide⟩
  unfold c9ClaimStatement
  decide

/-- Length of a filtered list equals the length iff everything passes. -/
theorem length_filter_eq_iff {α : Type} (p : α → Bool) (l : List α) :
    (l.filter p).length = l.length ↔ ∀ a ∈ l, p a = true := by
  induction l with
  | nil => simp
  | cons a t ih =>
    by_cases h : p a
    · simp [List.filter_cons, h, ih]
    · simp only [List.filter_cons, h, if_false, Bool.false_eq_true, List.length_cons]
      constructor
      · intro hlen
        exfalso
        have := List.length_filter_le p t
        omega
      · intro hall
        exact absurd (hall a (List.mem_cons_self a t)) (by simp [h])

/-- Two nodup lists with the same members have the same length. -/
theorem length_eq_of_nodup_mem_iff {α : Type} [DecidableEq α] {l₁ l₂ : List α}
    (h₁ : l₁.Nodup) (h₂ : l₂.Nodup) (h : ∀ x, x ∈ l₁ ↔ x ∈ l₂) :
    l₁.length = l₂.length :=
  ((List.perm_ext_iff_of_nodup h₁ h₂).2 h).length_eq

/-- Claim C9 (amended).  Under the store's uniqueness indices,
`needs_reindex(current_paths, type)` is true exactly when some current
path has no persisted vector of that type; persisted vectors for paths
that are no longer current do not trigger a reindex (the code counts
only documents matching the current paths). -/
theorem c9_amended (st : VecStore) (docPaths : List String) (vectorType : String)
    (hpaths : docPaths.Nodup)
    (hdpath : (st.documents.map (fun dc => dc.2)).Nodup)
    (hdid : (st.documents.map (fun dc => dc.1)).Nodup)
    (hvec : st.vectors.Nodup) :
    needsReindex st docPaths vectorType = true ↔
      ¬ (∀ p ∈ docPaths, hasVectorForPath st p vectorType) := by
  have hmain : needsReindex st docPaths vectorType = false ↔
      ∀ p ∈ docPaths, hasVectorForPath st p vectorType := by
    have hstep : needsReindex st docPaths vectorType = false ↔
        ((st.documents.filter (fun dc => decide (dc.2 ∈ docPaths))).length =
          (st.vectors.filter (fun v =>
            decide (v.1 ∈ (st.documents.filter
              (fun dc => decide (dc.2 ∈ docPaths))).map (fun dc => dc.1)) &&
            decide (v.2 = vectorType))).length ∧
         (st.documents.filter (fun dc => decide (dc.2 ∈ docPaths))).length =
          docPaths.length) := by
      simp only [needsReindex, Bool.or_eq_false_iff, decide_eq_false_iff_not, not_not]
    rw [hstep]
    set matched := st.documents.filter (fun dc => decide (dc.2 ∈ docPaths)) with hmatched
    set docIds := matched.map (fun dc => dc.1) with hdocIds
    have hsubl : matched.Sublist st.documents := List.filter_sublist _
    have hids_nodup : docIds.Nodup := (hsubl.map (fun dc => dc.1)).nodup hdid
    -- the vector count equals the number of matched ids owning a vector
    have hvcount : (st.vectors.filter (fun v =>
        decide (v.1 ∈ docIds) && decide (v.2 = vectorType))).length =
        (docIds.filter (fun i => decide ((i, vectorType) ∈ st.vectors))).length := by
      rw [← List.length_map (st.vectors.filter (fun v =>
        decide (v.1 ∈ docIds) && decide (v.2 = vectorType))) (fun v => v.1)]
      apply length_eq_of_nodup_mem_iff
      · show List.Pairwise _ _
        rw [List.pairwise_map]
        refine List.Pairwise.imp_of_mem ?_
          ((List.filter_sublist st.vectors).nodup hvec)
        intro a b ha hb hne
        rcases List.mem_filter.1 ha with ⟨_, hpa⟩
        rcases List.mem_filter.1 hb with ⟨_, hpb⟩
        rw [Bool.and_eq_true] at hpa hpb
        have hta' : a.2 = vectorType := of_decide_eq_true hpa.2
        have htb' : b.2 = vectorType := of_decide_eq_true hpb.2
        intro h1
        exact hne (Prod.ext h1 (hta'.trans htb'.symm))
      · exact hids_nodup.filter _
      · intro x
        constructor
        · intro hx
          rcases List.mem_map.1 hx with ⟨v, hv, hvx⟩
          rcases List.mem_filter.1 hv with ⟨hvmem, hp⟩
          rw [Bool.and_eq_true] at hp
          have h1' : v.1 ∈ docIds := of_decide_eq_true hp.1
          have h2' : v.2 = vectorType := of_decide_eq_true hp.2
          apply List.mem_filter.2
          refine ⟨hvx ▸ h1', decide_eq_true ?_⟩
          have : v = (x, vectorType) := Prod.ext hvx h2'
          rwa [this] at hvmem
        · intro hx
          rcases List.mem_filter.1 hx with ⟨hxid, hxv⟩
          have hxv' : (x, vectorType) ∈ st.vectors := of_decide_eq_true hxv
          exact List.mem_map.2 ⟨(x, vectorType),
            List.mem_filter.2 ⟨hxv', by simp [hxid]⟩, rfl⟩
    -- the matched-document count equals the number of current paths
    -- that are persisted at all
    have hpcount : matched.length =
        (docPaths.filter (fun p =>
          decide (p ∈ st.documents.map (fun dc => dc.2)))).length := by
      rw [← List.length_map matched (fun dc => dc.2)]
      apply length_eq_of_nodup_mem_iff
      · exact (hsubl.map (fun dc => dc.2)).nodup hdpath
      · exact hpaths.filter _
      · intro x
        constructor
        · intro hx
          rcases List.mem_map.1 hx with ⟨dc, hdc, hdcx⟩
          rcases List.mem_filter.1 hdc with ⟨hdmem, hdp⟩
          have hdp' : dc.2 ∈ docPaths := of_decide_eq_true hdp
          apply List.mem_filter.2
          exact ⟨hdcx ▸ hdp', decide_eq_true (List.mem_map.2 ⟨dc, hdmem, hdcx⟩)⟩
        · intro hx
          rcases List.mem_filter.1 hx with ⟨hxp, hxd⟩
          rcases List.mem_map.1 (of_decide_eq_true hxd) with ⟨dc, hdc, hdcx⟩
          exact List.mem_map.2 ⟨dc,
            List.mem_filter.2 ⟨hdc, decide_eq_true (hdcx ▸ hxp)⟩, hdcx⟩
    rw [hvcount]
    have hlen1 : matched.length = docIds.length := (List.length_map _ _).symm
    constructor
    · rintro ⟨hcv, hcp⟩ p hp
      -- every current path is persisted
      have hall_paths : ∀ x ∈ docPaths, x ∈ st.documents.map (fun dc => dc.2) :=
        fun x hx => of_decide_eq_true
          ((length_filter_eq_iff _ docPaths).1 (hpcount.symm.trans hcp) x hx)
      -- every matched id owns a vector
      have hall_ids : ∀ i ∈ docIds, (i, vectorType) ∈ st.vectors :=
        fun i hi => of_decide_eq_true
          ((length_filter_eq_iff _ docIds).1 (hlen1.symm.trans hcv).symm i hi)
      rcases List.mem_map.1 (hall_paths p hp) with ⟨dc, hdc, hdcp⟩
      have hdc_matched : dc ∈ matched :=
        List.mem_filter.2 ⟨hdc, decide_eq_true (hdcp ▸ hp)⟩
      have hid : dc.1 ∈ docIds := List.mem_map.2 ⟨dc, hdc_matched, rfl⟩
      exact ⟨dc, hdc, hdcp, hall_ids dc.1 hid⟩
    · intro hall
      have hall_paths : ∀ x ∈ docPaths, x ∈ st.documents.map (fun dc => dc.2) := by
        intro x hx
        rcases hall x hx with ⟨dc, hdc, hdcx, _⟩
        exact List.mem_map.2 ⟨dc, hdc, hdcx⟩
      have hall_ids : ∀ i ∈ docIds, (i, vectorType) ∈ st.vectors := by
        intro i hi
        rcases List.mem_map.1 hi with ⟨dc, hdcm, hdci⟩
        rcases List.mem_filter.1 hdcm with ⟨hdc, hdp⟩
        have hdp' : dc.2 ∈ docPaths := of_decide_eq_true hdp
        rcases hall dc.2 hdp' with ⟨dc', hdc', hdc2, hvecmem⟩
        have : dc' = dc :=
          List.inj_on_of_nodup_map hdpath hdc' hdc hdc2
        rw [this] at hvecmem
        rwa [hdci] at hvecmem
      constructor
      · rw [hlen1]
        exact ((length_filter_eq_iff _ docIds).2
          (fun i hi => decide_eq_true (hall_ids i hi))).symm
      · rw [hpcount]
        exact (length_filter_eq_iff _ docPaths).2
          (fun a ha => decide_eq_true (hall_paths a ha))
  constructor
  · intro ht hall
    rw [hmain.2 hall] at ht
    exact Bool.false_ne_true ht
  · intro hnall
    cases hb : needsReindex st docPaths vectorType with
    | false => exact absurd (hmain.1 hb) hnall
    | true => rfl

def c9WitnessPaths : List String := ["a", "b"]

/-- Witness for the amended claim C9 at a concrete store. -/
theorem c9_witness :
    needsReindex c9Store c9WitnessPaths c9Type = true ↔
      ¬ (∀ p ∈ c9WitnessPaths, hasVectorForPath c9Store p c9Type) :=
  c9_amended c9Store c9WitnessPaths c9Type (by decide) (by decide) (by decide) (by decide)

/-! ### The BM25 ranker (`algorithms/bm25.py`)

The engine instantiates `BM25(k1=1.5, b=0.75)` with the default
`epsilon=0.25`; those defaults are fixed below.  `math.log` is passed in
as `lg`. -/

/-- `BM25._tokenize`: lowercase, then `,`/`.`/`!`/`?` become spaces, then
split on whitespace.  Replacing by a space and then splitting on
whitespace runs is exactly `str.replace(...).split()`. -/
def bm25ReplChar (c : Char) : Char :=
  if c == ',' || c == '.' || c == '!' || c == '?' then ' ' else c

def bm25Tokenize (text : String) : List String :=
  pySplitWs ⟨(lowerStr text).data.map bm25ReplChar⟩

def bm25DocsTok (corpus : List String) : List (List String) := corpus.map bm25Tokenize

/-- `self.vocabulary`: the set of all corpus terms — membership test. -/
def bm25InVocab (corpus : List String) (t : String) : Bool :=
  (bm25DocsTok corpus).any (fun d => decide (t ∈ d))

/-- The `doc_count` of `_calculate_idf`: number of documents whose
(unique) term set contains `t`. -/
def bm25DocCount (corpus : List String) (t : String) : Nat :=
  ((bm25DocsTok corpus).filter (fun d => decide (t ∈ d))).length

def bm25DocLen (corpus : List String) (i : Nat) : Nat :=
  ((bm25DocsTok corpus).getD i []).length

section BM25

variable {K : Type} [LinearOrderedField K]

def bm25K1 : K := 3/2

def bm25B : K := 3/4

def bm25Eps : K := 1/4

/-- `avgdl = sum(doc_len)/corpus_size if corpus_size > 0 else 0`. -/
def bm25Avgdl (corpus : List String) : K :=
  if corpus.length = 0 then 0
  else ((((bm25DocsTok corpus).map List.length).sum : Nat) : K) / (corpus.length : K)

/-- `BM25._calculate_idf` for one term:
`max(ln((N − n + 0.5)/(n + 0.5) + 1), ε)`. -/
def bm25Idf (lg : K → K) (corpus : List String) (t : String) : K :=
  max (lg (((corpus.length : K) - (bm25DocCount corpus t : K) + 1/2) /
    ((bm25DocCount corpus t : K) + 1/2) + 1)) bm25Eps

/-- `BM25._score_document`: fold over the (multiset of) query tokens,
skipping out-of-vocabulary terms and zero frequencies. -/
def bm25ScoreDoc (lg : K → K) (corpus : List String) (query : String) (i : Nat) : K :=
  (bm25Tokenize query).foldl
    (fun acc t =>
      if bm25InVocab corpus t = true then
        let f := ((bm25DocsTok corpus).getD i []).count t
        if f = 0 then acc
        else acc + bm25Idf lg corpus t * ((f : K) * (bm25K1 + 1)) /
          ((f : K) + bm25K1 * (1 - bm25B + bm25B *
            ((bm25DocLen corpus i : K) / bm25Avgdl corpus)))
      else acc)
    0

/-- `BM25.get_scores`: one score per corpus document. -/
def bm25GetScores (lg : K → K) (corpus : List String) (query : String) : List K :=
  (List.range corpus.length).map (bm25ScoreDoc lg corpus query)

end BM25

/-! ### Claim C6: BM25 sanity -/

/-- A single score term is positive: the guards give `f ≥ 1`, hence the
scored document is nonempty, hence `avgdl > 0`, and every factor of
the term is positive. -/
theorem bm25_term_pos (corpus : List String) (i : Nat) (t : String)
    (hf : ((bm25DocsTok corpus).getD i []).count t ≠ 0) :
    0 < bm25Idf Real.log corpus t *
        ((((bm25DocsTok corpus).getD i []).count t : ℝ) * (bm25K1 + 1)) /
      ((((bm25DocsTok corpus).getD i []).count t : ℝ) + bm25K1 * (1 - bm25B + bm25B *
        ((bm25DocLen corpus i : ℝ) / bm25Avgdl corpus))) := by
  have hmem : t ∈ (bm25DocsTok corpus).getD i [] := by
    by_contra hmem
    exact hf (List.count_eq_zero.2 hmem)
  have hil : i < (bm25DocsTok corpus).length := by
    by_contra hge
    rw [List.getD_eq_default _ _ (le_of_not_lt hge)] at hmem
    exact List.not_mem_nil t hmem
  have hnempty : 1 ≤ ((bm25DocsTok corpus).getD i []).length :=
    List.length_pos.2 (List.ne_nil_of_mem hmem)
  have hsum : 1 ≤ ((bm25DocsTok corpus).map List.length).sum := by
    calc 1 ≤ ((bm25DocsTok corpus).getD i []).length := hnempty
    _ ≤ ((bm25DocsTok corpus).map List.length).sum := by
        apply List.single_le_sum (fun x _ => Nat.zero_le x)
        rw [List.getD_eq_getElem _ _ hil]
        exact List.mem_map.2 ⟨(bm25DocsTok corpus)[i], List.getElem_mem _, rfl⟩
  have hN : corpus.length ≠ 0 := by
    intro h0
    rw [bm25DocsTok] at hil
    rw [List.length_map] at hil
    omega
  have havg : (0 : ℝ) < bm25Avgdl corpus := by
    rw [bm25Avgdl, if_neg hN]
    apply div_pos
    · exact_mod_cast Nat.lt_of_lt_of_le Nat.zero_lt_one hsum
    · exact_mod_cast Nat.pos_of_ne_zero hN
  have hfpos : (0 : ℝ) < (((bm25DocsTok corpus).getD i []).count t : ℝ) := by
    exact_mod_cast Nat.pos_of_ne_zero hf
  have hidf : (0 : ℝ) < bm25Idf Real.log corpus t :=
    lt_of_lt_of_le (by norm_num [bm25Eps]) (le_max_right _ _)
  have hratio : (0 : ℝ) ≤ (bm25DocLen corpus i : ℝ) / bm25Avgdl corpus :=
    div_nonneg (Nat.cast_nonneg _) (le_of_lt havg)
  have hden : (0 : ℝ) < (((bm25DocsTok corpus).getD i []).count t : ℝ) +
      bm25K1 * (1 - bm25B + bm25B * ((bm25DocLen corpus i : ℝ) / bm25Avgdl corpus)) := by
    have h1 : (0 : ℝ) ≤ bm25K1 * (1 - bm25B + bm25B *
        ((bm25DocLen corpus i : ℝ) / bm25Avgdl corpus)) := by
      apply mul_nonneg (by norm_num [bm25K1])
      have : (0 : ℝ) ≤ bm25B * ((bm25DocLen corpus i : ℝ) / bm25Avgdl corpus) :=
        mul_nonneg (by norm_num [bm25B]) hratio
      norm_num [bm25B]
      linarith
    linarith
  exact div_pos (mul_pos hidf (mul_pos hfpos (by norm_num [bm25K1]))) hden

/-- The score fold keeps nonnegative accumulators nonnegative. -/
theorem bm25_fold_nonneg (corpus : List String) (i : Nat) :
    ∀ (ts : List String) (acc : ℝ), 0 ≤ acc →
      0 ≤ ts.foldl
        (fun acc t =>
          if bm25InVocab corpus t = true then
            let f := ((bm25DocsTok corpus).getD i []).count t
            if f = 0 then acc
            else acc + bm25Idf Real.log corpus t * ((f : ℝ) * (bm25K1 + 1)) /
              ((f : ℝ) + bm25K1 * (1 - bm25B + bm25B *
                ((bm25DocLen corpus i : ℝ) / bm25Avgdl corpus)))
          else acc) acc := by
  intro ts
  induction ts with
  | nil => intro acc hacc; exact hacc
  | cons t rest ih =>
    intro acc hacc
    simp only [List.foldl_cons]
    apply ih
    split_ifs with h1 h2
    · exact hacc
    · have := bm25_term_pos corpus i t h2
      linarith
    · exact hacc

/-- If no query token is in the vocabulary the fold never moves. -/
theorem bm25_fold_skip (corpus : List String) (i : Nat) :
    ∀ (ts : List String) (acc : ℝ), (∀ t ∈ ts, bm25InVocab corpus t = false) →
      ts.foldl
        (fun acc t =>
          if bm25InVocab corpus t = true then
            let f := ((bm25DocsTok corpus).getD i []).count t
            if f = 0 then acc
            else acc + bm25Idf Real.log corpus t * ((f : ℝ) * (bm25K1 + 1)) /
              ((f : ℝ) + bm25K1 * (1 - bm25B + bm25B *
                ((bm25DocLen corpus i : ℝ) / bm25Avgdl corpus)))
          else acc) acc = acc := by
  intro ts
  induction ts with
  | nil => intro acc _; rfl
  | cons t rest ih =>
    intro acc hall
    simp only [List.foldl_cons]
    rw [if_neg (by rw [hall t (List.mem_cons_self t rest)]; simp)]
    exact ih acc (fun x hx => hall x (List.mem_cons_of_mem t hx))

/-- Claim C6 (confirmed).  For every corpus (fitted with the engine's
default parameters `k1=1.5`, `b=0.75`, `ε=0.25`) and every query:
every BM25 score is ≥ 0; a query containing no corpus term produces an
all-zero score vector; and the stored per-term IDF of every vocabulary
term is `max(0.25, ln((N − n + 0.5)/(n + 0.5) + 1))` (hence ≥ 0.25),
with the document count `n` satisfying `1 ≤ n ≤ N`. -/
theorem c6_bm25_sanity (corpus : List String) (query : String) :
    (∀ s ∈ bm25GetScores Real.log corpus query, 0 ≤ s) ∧
      ((∀ t ∈ bm25Tokenize query, bm25InVocab corpus t = false) →
        ∀ s ∈ bm25GetScores Real.log corpus query, s = 0) ∧
      (∀ t, bm25InVocab corpus t = true →
        bm25Idf Real.log corpus t =
          max (Real.log (((corpus.length : ℝ) - (bm25DocCount corpus t : ℝ) + 1/2) /
            ((bm25DocCount corpus t : ℝ) + 1/2) + 1)) (1/4) ∧
        (1/4 : ℝ) ≤ bm25Idf Real.log corpus t ∧
        1 ≤ bm25DocCount corpus t ∧ bm25DocCount corpus t ≤ corpus.length) := by
  refine ⟨?_, ?_, ?_⟩
  · intro s hs
    rcases List.mem_map.1 hs with ⟨i, _, hi⟩
    rw [← hi]
    exact bm25_fold_nonneg corpus i (bm25Tokenize query) 0 le_rfl
  · intro hall s hs
    rcases List.mem_map.1 hs with ⟨i, _, hi⟩
    rw [← hi]
    exact bm25_fold_skip corpus i (bm25Tokenize query) 0 hall
  · intro t ht
    refine ⟨rfl, le_max_right _ _, ?_, ?_⟩
    · rcases List.any_eq_true.1 ht with ⟨d, hd, hdt⟩
      have : d ∈ (bm25DocsTok corpus).filter (fun d => decide (t ∈ d)) :=
        List.mem_filter.2 ⟨hd, hdt⟩
      exact List.length_pos.2 (List.ne_nil_of_mem this)
    · calc bm25DocCount corpus t ≤ (bm25DocsTok corpus).length :=
          List.length_filter_le _ _
      _ = corpus.length := List.length_map _ _

def c6wCorpus : List String := ["the cat sat", "a dog ran"]

def c6wQuery : String := "zebra elephant"

/-- Witness for claim C6: a query with no corpus term yields all-zero
scores, by the theorem with its premise discharged at a concrete
input. -/
theorem c6_witness :
    (∀ t ∈ bm25Tokenize c6wQuery, bm25InVocab c6wCorpus t = false) ∧
      ∀ s ∈ bm25GetScores Real.log c6wCorpus c6wQuery, s = 0 :=
  ⟨by decide, (c6_bm25_sanity c6wCorpus c6wQuery).2.1 (by decide)⟩

/-! ### The TF-IDF vectoriser (`custom_ml/tfidf.py`): fit and transform -/

/-- Code-point lexicographic comparison of character lists: the order
Python's `sorted` uses on strings. -/
def charListLe : List Char → List Char → Bool
  | [], _ => true
  | _ :: _, [] => false
  | a :: as, b :: bs =>
    if a.toNat < b.toNat then true
    else if b.toNat < a.toNat then false
    else charListLe as bs

def strLe (a b : String) : Bool := charListLe a.data b.data

/-- `min_df`/`max_df` as document counts:
`min_count = min_df if isinstance(min_df, int) else int(min_df * n_docs)`
(similarly for `max_count`).  For a nonnegative rational `q`,
`int(q * n)` (truncation toward zero) is `(q.num * n) / q.den` in
integer division. -/
def dfBound : Nat ⊕ ℚ → Nat → Nat
  | Sum.inl n, _ => n
  | Sum.inr q, nd => ((q.num * (nd : Int)) / (q.den : Int)).toNat

/-- Per-document unique term sets, in corpus order (the `set(ngrams)` of
`_build_vocabulary`, modelled as first-occurrence dedup). -/
def docTermSets (cfg : TfidfConfig) (corpus : List String) : List (List String) :=
  corpus.map (fun d => (tokensNg cfg d).dedup)

/-- Candidate vocabulary terms in first-seen order (the insertion order
of the `doc_freq` Counter). -/
def candidateTerms (cfg : TfidfConfig) (corpus : List String) : List String :=
  (docTermSets cfg corpus).flatten.dedup

/-- Document frequency of a term: in how many documents it occurs. -/
def docFreq (cfg : TfidfConfig) (corpus : List String) (t : String) : Nat :=
  ((docTermSets cfg corpus).filter (fun s => decide (t ∈ s))).length

/-- Terms whose document frequency lies within `[min_count, max_count]`. -/
def filteredTerms (cfg : TfidfConfig) (corpus : List String) : List String :=
  (candidateTerms cfg corpus).filter (fun t =>
    decide (dfBound cfg.minDf corpus.length ≤ docFreq cfg corpus t) &&
    decide (docFreq cfg corpus t ≤ dfBound cfg.maxDf corpus.length))

/-- The `max_features` cap: when the (truthy, hence positive) cap is
exceeded, keep the top terms by document frequency (stable sort, as
Python's `sorted(key=..., reverse=True)`). -/
def prunedTerms (cfg : TfidfConfig) (corpus : List String) : List String :=
  match cfg.maxFeatures with
  | some m =>
    if 0 < m ∧ m < (filteredTerms cfg corpus).length then
      (List.insertionSort
        (fun a b => docFreq cfg corpus b ≤ docFreq cfg corpus a)
        (filteredTerms cfg corpus)).take m
    else filteredTerms cfg corpus
  | none => filteredTerms cfg corpus

/-- The fitted vocabulary in feature-index order:
`sorted(filtered_terms)`. -/
def vocabList (cfg : TfidfConfig) (corpus : List String) : List String :=
  List.insertionSort (fun a b => strLe a b = true) (prunedTerms cfg corpus)

section Tfidf

variable {K : Type} [LinearOrderedField K]

/-- `_calculate_idf`: `idf = log(n_docs / df) + 1`. -/
def idfOf (lg : K → K) (cfg : TfidfConfig) (corpus : List String) (t : String) : K :=
  lg ((corpus.length : K) / (docFreq cfg corpus t : K)) + 1

/-- One unnormalised row of `transform`: `tf * idf` per vocabulary term,
zero when the document has no terms (`total_terms == 0` makes the code
skip the row, leaving zeros). -/
def tfidfURow (lg : K → K) (cfg : TfidfConfig) (corpus : List String) (doc : String) :
    List K :=
  let ng := tokensNg cfg doc
  if ng.length = 0 then (vocabList cfg corpus).map (fun _ => 0)
  else (vocabList cfg corpus).map
    (fun t => ((ng.count t : K) / (ng.length : K)) * idfOf lg cfg corpus t)

/-- Squared L2 norm of a row. -/
def l2normSq (v : List K) : K := (v.map (fun x => x * x)).sum

/-- One row of `transform` after the final L2 normalisation
(`row_norms[row_norms == 0] = 1` guards the zero rows). -/
def transformRow (lg sq : K → K) (cfg : TfidfConfig) (corpus : List String) (doc : String) :
    List K :=
  let u := tfidfURow lg cfg corpus doc
  let nrm := sq (l2normSq u)
  let d := if nrm = 0 then 1 else nrm
  u.map (fun x => x / d)

end Tfidf

theorem sum_map_div (l : List ℝ) (c : ℝ) : (l.map (fun x => x / c)).sum = l.sum / c := by
  induction l with
  | nil => simp
  | cons x t ih => simp [ih, add_div]

theorem l2normSq_map_div (u : List ℝ) (c : ℝ) :
    l2normSq (u.map (fun x => x / c)) = l2normSq u / (c * c) := by
  unfold l2normSq
  rw [List.map_map]
  have h1 : ((fun x => x * x) ∘ fun x => x / c) = fun x => (x * x) / (c * c) := by
    funext x
    simp [Function.comp, div_mul_div_comm]
  rw [h1]
  have h2 : (fun x : ℝ => x * x / (c * c)) =
      (fun y : ℝ => y / (c * c)) ∘ (fun x : ℝ => x * x) := rfl
  rw [h2, ← List.map_map, sum_map_div]

/-! ### Claim C5: the `transform` rows -/

/-- Claim C5 (amended).  For every fitted corpus and every fitted
document that has at least one *in-vocabulary* term (the amendment:
"non-empty" is not enough once `max_features` pruning or stop-word
interaction can empty a row), the row `transform` produces is the
`tf·idf` row divided by its L2 norm, its squared norm is exactly 1, so
its norm lies in `[1 − 1e-6, 1 + 1e-6]`; and any document with an
empty term sequence yields the zero row. -/
theorem c5_amended (cfg : TfidfConfig) (corpus : List String) (i : Nat)
    (hi : i < corpus.length)
    (hterm : ∃ t, t ∈ tokensNg cfg (corpus.getD i emptyString) ∧
      t ∈ vocabList cfg corpus) :
    0 < l2normSq (tfidfURow Real.log cfg corpus (corpus.getD i emptyString)) ∧
    transformRow Real.log Real.sqrt cfg corpus (corpus.getD i emptyString) =
      (tfidfURow Real.log cfg corpus (corpus.getD i emptyString)).map
        (fun x => x / Real.sqrt
          (l2normSq (tfidfURow Real.log cfg corpus (corpus.getD i emptyString)))) ∧
    (∀ j, j < (vocabList cfg corpus).length →
      (tfidfURow Real.log cfg corpus (corpus.getD i emptyString)).getD j 0 =
        (((tokensNg cfg (corpus.getD i emptyString)).count
            ((vocabList cfg corpus).getD j emptyString) : ℝ) /
          ((tokensNg cfg (corpus.getD i emptyString)).length : ℝ)) *
          idfOf Real.log cfg corpus ((vocabList cfg corpus).getD j emptyString)) ∧
    l2normSq (transformRow Real.log Real.sqrt cfg corpus (corpus.getD i emptyString)) = 1 ∧
    1 - 1/1000000 ≤
      Real.sqrt (l2normSq (transformRow Real.log Real.sqrt cfg corpus
        (corpus.getD i emptyString))) ∧
    Real.sqrt (l2normSq (transformRow Real.log Real.sqrt cfg corpus
      (corpus.getD i emptyString))) ≤ 1 + 1/1000000 ∧
    (∀ doc', tokensNg cfg doc' = [] →
      transformRow Real.log Real.sqrt cfg corpus doc' =
        (vocabList cfg corpus).map (fun _ => 0)) := by
  rcases hterm with ⟨t0, ht0ng, ht0v⟩
  have hng : tokensNg cfg (corpus.getD i emptyString) ≠ [] := List.ne_nil_of_mem ht0ng
  have hlen : (tokensNg cfg (corpus.getD i emptyString)).length ≠ 0 :=
    fun h => hng (List.length_eq_zero.1 h)
  have hurow : tfidfURow Real.log cfg corpus (corpus.getD i emptyString) =
      (vocabList cfg corpus).map
        (fun t => (((tokensNg cfg (corpus.getD i emptyString)).count t : ℝ) /
          ((tokensNg cfg (corpus.getD i emptyString)).length : ℝ)) *
          idfOf Real.log cfg corpus t) := by
    rw [tfidfURow, if_neg hlen]
  -- document frequency of the witness term is in [1, N]
  have hdfpos : 0 < docFreq cfg corpus t0 := by
    have hset : (tokensNg cfg (corpus.getD i emptyString)).dedup ∈
        (docTermSets cfg corpus).filter (fun s => decide (t0 ∈ s)) := by
      apply List.mem_filter.2
      constructor
      · apply List.mem_map.2
        refine ⟨corpus.getD i emptyString, ?_, rfl⟩
        rw [List.getD_eq_getElem _ _ hi]
        exact List.getElem_mem hi
      · exact decide_eq_true (List.mem_dedup.2 ht0ng)
    exact List.length_pos.2 (List.ne_nil_of_mem hset)
  have hdfle : docFreq cfg corpus t0 ≤ corpus.length := by
    calc docFreq cfg corpus t0 ≤ (docTermSets cfg corpus).length := List.length_filter_le _ _
    _ = corpus.length := List.length_map _ _
  -- the idf of an in-corpus term is at least 1
  have hidf : (1 : ℝ) ≤ idfOf Real.log cfg corpus t0 := by
    rw [idfOf]
    have h1 : (1 : ℝ) ≤ (corpus.length : ℝ) / (docFreq cfg corpus t0 : ℝ) := by
      rw [le_div_iff₀ (by exact_mod_cast hdfpos)]
      simpa using (Nat.cast_le (α := ℝ)).2 hdfle
    have := Real.log_nonneg h1
    linarith
  -- the witness entry of the unnormalised row is positive
  have hentry : (0 : ℝ) < (((tokensNg cfg (corpus.getD i emptyString)).count t0 : ℝ) /
      ((tokensNg cfg (corpus.getD i emptyString)).length : ℝ)) *
      idfOf Real.log cfg corpus t0 := by
    apply mul_pos
    · apply div_pos
      · exact_mod_cast List.count_pos_iff.2 ht0ng
      · exact_mod_cast Nat.pos_of_ne_zero hlen
    · linarith
  have hSpos : 0 < l2normSq (tfidfURow Real.log cfg corpus (corpus.getD i emptyString)) := by
    rw [hurow]
    set f := fun t => (((tokensNg cfg (corpus.getD i emptyString)).count t : ℝ) /
      ((tokensNg cfg (corpus.getD i emptyString)).length : ℝ)) *
      idfOf Real.log cfg corpus t with hf
    have hmem : f t0 * f t0 ∈ (((vocabList cfg corpus).map f).map (fun x => x * x)) := by
      rw [List.map_map]
      exact List.mem_map.2 ⟨t0, ht0v, rfl⟩
    have hle : f t0 * f t0 ≤ (((vocabList cfg corpus).map f).map (fun x => x * x)).sum :=
      List.single_le_sum (fun x hx => by
        rcases List.mem_map.1 hx with ⟨y, _, hy⟩
        rw [← hy]; exact mul_self_nonneg y) _ hmem
    have : 0 < f t0 * f t0 := mul_pos hentry hentry
    unfold l2normSq
    linarith
  have hsqrt_pos : 0 < Real.sqrt
      (l2normSq (tfidfURow Real.log cfg corpus (corpus.getD i emptyString))) :=
    Real.sqrt_pos.2 hSpos
  have hrow : transformRow Real.log Real.sqrt cfg corpus (corpus.getD i emptyString) =
      (tfidfURow Real.log cfg corpus (corpus.getD i emptyString)).map
        (fun x => x / Real.sqrt
          (l2normSq (tfidfURow Real.log cfg corpus (corpus.getD i emptyString)))) := by
    rw [transformRow]
    rw [if_neg (ne_of_gt hsqrt_pos)]
  have hnorm1 : l2normSq (transformRow Real.log Real.sqrt cfg corpus
      (corpus.getD i emptyString)) = 1 := by
    rw [hrow, l2normSq_map_div,
      Real.mul_self_sqrt (le_of_lt hSpos), div_self (ne_of_gt hSpos)]
  refine ⟨hSpos, hrow, ?_, hnorm1, ?_, ?_, ?_⟩
  · intro j hj
    rw [hurow]
    have hj' : j < ((vocabList cfg corpus).map (fun t =>
        (((tokensNg cfg (corpus.getD i emptyString)).count t : ℝ) /
          ((tokensNg cfg (corpus.getD i emptyString)).length : ℝ)) *
          idfOf Real.log cfg corpus t)).length := by
      rw [List.length_map]; exact hj
    rw [List.getD_eq_getElem _ _ hj', List.getElem_map, List.getD_eq_getElem _ _ hj]
  · rw [hnorm1, Real.sqrt_one]; norm_num
  · rw [hnorm1, Real.sqrt_one]; norm_num
  · intro doc' hdoc'
    have hu0 : tfidfURow Real.log cfg corpus doc' = (vocabList cfg corpus).map (fun _ => 0) := by
      rw [tfidfURow, hdoc']
      simp
    have hS0 : l2normSq (tfidfURow Real.log cfg corpus doc') = 0 := by
      rw [hu0]
      apply List.sum_eq_zero
      intro x hx
      rw [List.map_map] at hx
      rcases List.mem_map.1 hx with ⟨y, _, hy⟩
      simp [Function.comp] at hy
      exact hy.symm
    rw [transformRow, hS0, Real.sqrt_zero, if_pos rfl, hu0, List.map_map]
    apply List.map_congr_left
    intro x _
    simp

def c5CexCfg : TfidfConfig := ⟨some 1, Sum.inl 1, Sum.inr 1, true, [], 1, 1⟩

def c5CexCorpus : List String := ["c", "c", "c b", "b"]

def c5CexDoc : String := "b"

/-- Claim C5 (counterexample).  With `max_features = 1` the term `b`
(document frequency 2) is pruned in favour of `c` (document
frequency 3); the fitted document `"b"` at corpus index 3 is non-empty
(its token sequence is `["b"]`), yet its transformed row is the zero
vector, whose L2 norm 0 lies outside `[1 − 1e-6, 1 + 1e-6]`. -/
theorem c5_counterexample :
    c5CexCorpus.getD 3 emptyString = c5CexDoc ∧
      tokensNg c5CexCfg c5CexDoc ≠ [] ∧
      transformRow Real.log Real.sqrt c5CexCfg c5CexCorpus c5CexDoc = [0] ∧
      ¬ ((1 : ℝ) - 1/1000000 ≤
        Real.sqrt (l2normSq (transformRow Real.log Real.sqrt c5CexCfg c5CexCorpus c5CexDoc))) := by
  have hvocab : vocabList c5CexCfg c5CexCorpus = [⟨['c']⟩] := by decide
  have hng : tokensNg c5CexCfg c5CexDoc = [⟨['b']⟩] := by decide
  have hcount : (tokensNg c5CexCfg c5CexDoc).count (⟨['c']⟩ : String) = 0 := by decide
  have hu : tfidfURow Real.log c5CexCfg c5CexCorpus c5CexDoc = [0] := by
    rw [tfidfURow, if_neg (by rw [hng]; simp), hvocab]
    simp only [List.map_cons, List.map_nil, hcount]
    norm_num
  have hS : l2normSq (tfidfURow Real.log c5CexCfg c5CexCorpus c5CexDoc) = 0 := by
    rw [hu]
    simp [l2normSq]
  have hrow : transformRow Real.log Real.sqrt c5CexCfg c5CexCorpus c5CexDoc = [0] := by
    rw [transformRow, hS, Real.sqrt_zero, if_pos rfl, hu]
    norm_num
  refine ⟨by decide, by rw [hng]; simp, hrow, ?_⟩
  rw [hrow]
  have : l2normSq ([0] : List ℝ) = 0 := by simp [l2normSq]
  rw [this, Real.sqrt_zero]
  norm_num

def c5wCorpus : List String := ["delta code", "delta"]

/-- Witness for the amended claim C5: the first document of a concrete
two-document corpus has in-vocabulary terms, so its transformed row
has squared norm 1. -/
theorem c5_witness :
    0 < l2normSq (tfidfURow Real.log engineCfg c5wCorpus (c5wCorpus.getD 0 emptyString)) ∧
      l2normSq (transformRow Real.log Real.sqrt engineCfg c5wCorpus
        (c5wCorpus.getD 0 emptyString)) = 1 := by
  have h := c5_amended engineCfg c5wCorpus 0 (by decide)
    ⟨⟨['d','e','l','t','a']⟩, by decide, by decide⟩
  exact ⟨h.1, h.2.2.2.1⟩

/-! ### The cosine similarity search (`custom_ml/similarity.py`) -/

section Similarity

variable {K : Type} [LinearOrderedField K]

def dotL (a b : List K) : K := (List.zipWith (· * ·) a b).sum

/-- `SimilaritySearch.cosine_similarity`: normalise the query (zero norm
gives the all-zero score vector), normalise every row (zero norms
replaced by 1), then the dot products. -/
def cosineSimilarity (sq : K → K) (qv : List K) (M : List (List K)) : List K :=
  let qn := sq (l2normSq qv)
  if qn = 0 then M.map (fun _ => 0)
  else
    let qhat := qv.map (fun x => x / qn)
    M.map (fun row =>
      let rn := sq (l2normSq row)
      let rdiv := if rn = 0 then 1 else rn
      dotL (row.map (fun x => x / rdiv)) qhat)

/-- The index order `np.argsort` uses, as a total order: ascending by
score, ties by ascending index (NumPy's sort is insertion sort — hence
stable — on the short arrays involved here). -/
def IdxLe (v : List K) (i j : Nat) : Prop :=
  v.getD i 0 < v.getD j 0 ∨ (v.getD i 0 = v.getD j 0 ∧ i ≤ j)

instance (v : List K) : DecidableRel (IdxLe v) := fun i j => by
  unfold IdxLe
  infer_instance

/-- `np.argsort(scores)`: the stable ascending index sort. -/
def argsortAsc (v : List K) : List Nat :=
  List.insertionSort (IdxLe v) (List.range v.length)

/-- `SimilaritySearch.search` with the cosine metric:
`np.argsort(scores)[::-1][:k]`, returning `(index, score)` pairs
(the metadata component is dropped). -/
def searchTopK (sq : K → K) (M : List (List K)) (qv : List K) (k : Nat) :
    List (Nat × K) :=
  let scores := cosineSimilarity sq qv M
  ((argsortAsc scores).reverse.take k).map (fun i => (i, scores.getD i 0))

instance (v : List K) : IsTotal Nat (IdxLe v) := ⟨by
  intro i j
  rcases lt_trichotomy (v.getD i 0) (v.getD j 0) with h | h | h
  · exact Or.inl (Or.inl h)
  · rcases Nat.le_total i j with hij | hij
    · exact Or.inl (Or.inr ⟨h, hij⟩)
    · exact Or.inr (Or.inr ⟨h.symm, hij⟩)
  · exact Or.inr (Or.inl h)⟩

instance (v : List K) : IsTrans Nat (IdxLe v) := ⟨by
  intro a b c hab hbc
  rcases hab with h1 | ⟨e1, l1⟩ <;> rcases hbc with h2 | ⟨e2, l2⟩
  · exact Or.inl (lt_trans h1 h2)
  · exact Or.inl (e2 ▸ h1)
  · exact Or.inl (e1 ▸ h2)
  · exact Or.inr ⟨e1.trans e2, le_trans l1 l2⟩⟩

end Similarity

/-! ### Claim C8: tie order of the cosine search -/

def c8Matrix : List (List ℝ) := [[1, 0], [1, 0]]

def c8Query : List ℝ := [1, 0]

/-- Claim C8 (counterexample).  Two identical rows score exactly equally
against the query, and `search` returns row 1 *before* row 0:
`np.argsort([1,1]) = [0,1]`, and the `[::-1]` reversal puts the higher
row index first, contradicting "the lower row index wins". -/
theorem c8_counterexample :
    cosineSimilarity Real.sqrt c8Query c8Matrix = [1, 1] ∧
      searchTopK Real.sqrt c8Matrix c8Query 2 = [(1, (1 : ℝ)), (0, 1)] := by
  have hq : l2normSq c8Query = 1 := by norm_num [c8Query, l2normSq]
  have hqs : Real.sqrt (l2normSq c8Query) = 1 := by rw [hq, Real.sqrt_one]
  have hscores : cosineSimilarity Real.sqrt c8Query c8Matrix = [1, 1] := by
    rw [cosineSimilarity]
    rw [hqs, if_neg one_ne_zero]
    show List.map _ c8Matrix = _
    rw [show c8Matrix = [[1, 0], [1, 0]] from rfl]
    rw [show c8Query = [(1 : ℝ), 0] from rfl]
    have hr : l2normSq ([1, 0] : List ℝ) = 1 := by norm_num [l2normSq]
    simp only [List.map_cons, List.map_nil, hr, Real.sqrt_one]
    rw [if_neg one_ne_zero]
    norm_num [dotL]
  refine ⟨hscores, ?_⟩
  rw [searchTopK, hscores]
  have hrange : List.range ([(1 : ℝ), 1].length) = [0, 1] := rfl
  have hsort : argsortAsc ([(1 : ℝ), 1]) = [0, 1] := by
    rw [argsortAsc, hrange]
    show List.orderedInsert _ 0 (List.orderedInsert _ 1 []) = [0, 1]
    rw [List.orderedInsert, List.orderedInsert]
    rw [if_pos (show IdxLe ([(1 : ℝ), 1]) 0 1 from Or.inr ⟨rfl, by norm_num⟩)]
  rw [hsort]
  norm_num

/-- Claim C8 (amended).  `search` with the cosine metric is
deterministic and returns its results sorted by score descending with
ties broken by *higher* row index first: `np.argsort` sorts ascending
(stably: ties by lower index first), and the `[::-1]` reversal hands
equal-scored rows back in descending index order.  The claim's "lower
row index wins" is the opposite of what the code does. -/
theorem c8_amended (M : List (List ℝ)) (qv : List ℝ) (k : Nat) :
    (searchTopK Real.sqrt M qv k).Pairwise
      (fun a b => b.2 < a.2 ∨ (a.2 = b.2 ∧ b.1 < a.1)) := by
  rw [searchTopK]
  set scores := cosineSimilarity Real.sqrt qv M with hscores
  have h1 : (argsortAsc scores).Pairwise (IdxLe scores) :=
    List.sorted_insertionSort (IdxLe scores) (List.range scores.length)
  have hnd : (argsortAsc scores).Nodup :=
    ((List.perm_insertionSort (IdxLe scores) (List.range scores.length)).nodup_iff).2
      (List.nodup_range _)
  have h2 : (argsortAsc scores).reverse.Pairwise (fun a b => IdxLe scores b a) :=
    List.pairwise_reverse.2 h1
  have hnd2 : (argsortAsc scores).reverse.Nodup := List.nodup_reverse.2 hnd
  have h3 : (argsortAsc scores).reverse.Pairwise
      (fun a b => IdxLe scores b a ∧ a ≠ b) := h2.and hnd2
  have h4 : ((argsortAsc scores).reverse.take k).Pairwise
      (fun a b => IdxLe scores b a ∧ a ≠ b) :=
    h3.sublist (List.take_sublist k _)
  apply List.pairwise_map.2
  apply h4.imp
  intro i j hij
  rcases hij with ⟨hle, hne⟩
  rcases hle with hlt | ⟨heq, hji⟩
  · exact Or.inl hlt
  · exact Or.inr ⟨heq.symm, lt_of_le_of_ne hji (fun h => hne h.symm)⟩

/-! ### The hybrid engine scoring path
(`search_engines/hybrid_custom_search.py`, `find_relevant_doc`,
lines 351–382: no cache hit, no feedback shortcut) -/

section Engine

variable {K : Type} [LinearOrderedField K]

/-- `HybridCustomSearchEngine._normalize_scores`: min–max normalisation;
nearly-constant vectors (spread below `1e-10`) become all-ones. -/
def normalizeScores (v : List K) : List K :=
  match v with
  | [] => []
  | x :: xs =>
    let mn := xs.foldl min x
    let mx := xs.foldl max x
    if mx - mn < 1/10000000000 then v.map (fun _ => 1)
    else v.map (fun s => (s - mn) / (mx - mn))

/-- The normalised default weights: `0.4/(0.4+0.6)` and `0.6/(0.4+0.6)`. -/
def wTfidf : K := 2/5

def wBm25 : K := 3/5

/-- `np.argmax`: index of the maximum, first occurrence on ties. -/
def argmaxIdx (v : List K) : Nat :=
  (List.range v.length).foldl (fun b i => if v.getD b 0 < v.getD i 0 then i else b) 0

/-- `transform(documents)`: the fitted TF-IDF matrix of the corpus. -/
def transformMatrix (lg sq : K → K) (cfg : TfidfConfig) (corpus : List String) :
    List (List K) :=
  corpus.map (transformRow lg sq cfg corpus)

/-- The scoring path of `find_relevant_doc`: transform the query, run the
cosine search over the full matrix (`k = len(documents)`), take the
*score column of the returned (sorted!) results*, take the BM25 scores,
min–max normalise both, combine with the normalised weights, and pick
the argmax — the returned document is `doc_paths[best_idx]`, so the
function returns the corpus index. -/
def findRelevantDocScoringIdx (lg sq : K → K) (docs : List String) (q : String) : Nat :=
  let M := transformMatrix lg sq engineCfg docs
  let qv := transformRow lg sq engineCfg docs q
  let tfidfResults := searchTopK sq M qv docs.length
  let tArr := tfidfResults.map (fun r => r.2)
  let bArr := bm25GetScores lg docs q
  let tn := normalizeScores tArr
  let bn := normalizeScores bArr
  let combined := List.zipWith (fun a b => wTfidf * a + wBm25 * b) tn bn
  argmaxIdx combined

/-- Modelled from the claim's words: the same fusion but with the TF-IDF
cosine scores *aligned by document index* (position `i` of both score
vectors belongs to document `i`). -/
def alignedFusedIdx (lg sq : K → K) (docs : List String) (q : String) : Nat :=
  let M := transformMatrix lg sq engineCfg docs
  let qv := transformRow lg sq engineCfg docs q
  let tArr := cosineSimilarity sq qv M
  let bArr := bm25GetScores lg docs q
  let tn := normalizeScores tArr
  let bn := normalizeScores bArr
  let combined := List.zipWith (fun a b => wTfidf * a + wBm25 * b) tn bn
  argmaxIdx combined

end Engine

theorem argmaxIdx_pair (a b : ℝ) : argmaxIdx [a, b] = if a < b then 1 else 0 := by
  show List.foldl _ 0 (List.range 2) = _
  rw [show List.range 2 = [0, 1] from rfl, List.foldl_cons, List.foldl_cons, List.foldl_nil]
  rw [if_neg (lt_irrefl (([a, b] : List ℝ).getD 0 0))]
  rfl

/-! ### Claim C1: the fused ranking of `find_relevant_doc` -/

def c1X : String := "x"

def c1XX : String := "x x"

def c1Doc21 : String := "x-x-x-x-x-x-x-x-x-x-x-x-x-x-x-x-x-x-x-x-x"

def c1Doc4 : String := "x-x-x-x"

def c1Corpus : List String := [c1Doc21, c1Doc4]

/-- Claim C1 (code bug).  `find_relevant_doc` discards the index column
of `SimilaritySearch.search` and fuses the *descending-sorted* TF-IDF
score array with the *document-aligned* BM25 array.  On the two-document
corpus above with query `"x"`, the TF-IDF cosine scores are
`[21/29, 4/5]` (document 1 is the better match) while BM25 gives
`[0, 0]` (the query token `"x"` is not a BM25 token of either document,
which BM25 tokenises at whitespace only).  The code fuses
`0.4·[1, 0] + 0.6·[1, 1] = [1, 0.6]` and returns document 0; the
claim's (and the spec's) aligned fusion `0.4·[0, 1] + 0.6·[1, 1]
= [0.6, 1]` picks document 1. -/
theorem c1_hybrid_fusion_misalignment :
    findRelevantDocScoringIdx Real.log Real.sqrt c1Corpus c1X = 0 ∧
      alignedFusedIdx Real.log Real.sqrt c1Corpus c1X = 1 := by
  -- vocabulary, token counts, document frequencies (string level, decided)
  have hvocab : vocabList engineCfg c1Corpus = [c1X, c1XX] := by decide
  have hlen21 : (tokensNg engineCfg c1Doc21).length = 41 := by decide
  have hc21x : (tokensNg engineCfg c1Doc21).count c1X = 21 := by decide
  have hc21xx : (tokensNg engineCfg c1Doc21).count c1XX = 20 := by decide
  have hlen4 : (tokensNg engineCfg c1Doc4).length = 7 := by decide
  have hc4x : (tokensNg engineCfg c1Doc4).count c1X = 4 := by decide
  have hc4xx : (tokensNg engineCfg c1Doc4).count c1XX = 3 := by decide
  have hlenq : (tokensNg engineCfg c1X).length = 1 := by decide
  have hcqx : (tokensNg engineCfg c1X).count c1X = 1 := by decide
  have hcqxx : (tokensNg engineCfg c1X).count c1XX = 0 := by decide
  have hdfx : docFreq engineCfg c1Corpus c1X = 2 := by decide
  have hdfxx : docFreq engineCfg c1Corpus c1XX = 2 := by decide
  have hN : c1Corpus.length = 2 := rfl
  -- both idf values are log(2/2) + 1 = 1
  have hidfx : idfOf Real.log engineCfg c1Corpus c1X = 1 := by
    rw [idfOf, hdfx, hN]
    norm_num
  have hidfxx : idfOf Real.log engineCfg c1Corpus c1XX = 1 := by
    rw [idfOf, hdfxx, hN]
    norm_num
  -- unnormalised rows
  have hu21 : tfidfURow Real.log engineCfg c1Corpus c1Doc21 = [21/41, 20/41] := by
    simp only [tfidfURow, hlen21, hvocab, List.map_cons, List.map_nil,
      hc21x, hc21xx, hidfx, hidfxx]
    norm_num
  have hu4 : tfidfURow Real.log engineCfg c1Corpus c1Doc4 = [4/7, 3/7] := by
    simp only [tfidfURow, hlen4, hvocab, List.map_cons, List.map_nil,
      hc4x, hc4xx, hidfx, hidfxx]
    norm_num
  have huq : tfidfURow Real.log engineCfg c1Corpus c1X = [1, 0] := by
    simp only [tfidfURow, hlenq, hvocab, List.map_cons, List.map_nil,
      hcqx, hcqxx, hidfx, hidfxx]
    norm_num
  -- normalised rows
  have hrow21 : transformRow Real.log Real.sqrt engineCfg c1Corpus c1Doc21 =
      [21/29, 20/29] := by
    have hS : l2normSq ([21/41, 20/41] : List ℝ) = 841/1681 := by norm_num [l2normSq]
    have hsq : Real.sqrt (841/1681 : ℝ) = 29/41 := by
      rw [show (841/1681 : ℝ) = (29/41)^2 by norm_num]
      exact Real.sqrt_sq (by norm_num)
    simp only [transformRow, hu21, hS, hsq]
    rw [if_neg (by norm_num)]
    norm_num
  have hrow4 : transformRow Real.log Real.sqrt engineCfg c1Corpus c1Doc4 = [4/5, 3/5] := by
    have hS : l2normSq ([4/7, 3/7] : List ℝ) = 25/49 := by norm_num [l2normSq]
    have hsq : Real.sqrt (25/49 : ℝ) = 5/7 := by
      rw [show (25/49 : ℝ) = (5/7)^2 by norm_num]
      exact Real.sqrt_sq (by norm_num)
    simp only [transformRow, hu4, hS, hsq]
    rw [if_neg (by norm_num)]
    norm_num
  have hrowq : transformRow Real.log Real.sqrt engineCfg c1Corpus c1X = [1, 0] := by
    have hS : l2normSq ([1, 0] : List ℝ) = 1 := by norm_num [l2normSq]
    simp only [transformRow, huq, hS, Real.sqrt_one]
    rw [if_neg one_ne_zero]
    norm_num
  have hM : transformMatrix Real.log Real.sqrt engineCfg c1Corpus =
      [[21/29, 20/29], [4/5, 3/5]] := by
    show [transformRow Real.log Real.sqrt engineCfg c1Corpus c1Doc21,
      transformRow Real.log Real.sqrt engineCfg c1Corpus c1Doc4] = _
    rw [hrow21, hrow4]
  -- cosine scores, aligned by document index
  have hcos : cosineSimilarity Real.sqrt ([1, 0] : List ℝ) [[21/29, 20/29], [4/5, 3/5]] =
      [21/29, 4/5] := by
    have hq1 : l2normSq ([1, 0] : List ℝ) = 1 := by norm_num [l2normSq]
    have hr1 : l2normSq ([21/29, 20/29] : List ℝ) = 1 := by norm_num [l2normSq]
    have hr2 : l2normSq ([4/5, 3/5] : List ℝ) = 1 := by norm_num [l2normSq]
    simp only [cosineSimilarity, hq1, Real.sqrt_one]
    rw [if_neg one_ne_zero]
    simp only [List.map_cons, List.map_nil, hr1, hr2, Real.sqrt_one]
    rw [if_neg one_ne_zero]
    norm_num [dotL]
  -- the sorted search output: document 1 first
  have hsearch : searchTopK Real.sqrt [[21/29, 20/29], [4/5, 3/5]] ([1, 0] : List ℝ) 2 =
      [(1, 4/5), (0, 21/29)] := by
    rw [searchTopK, hcos]
    have hsort : argsortAsc ([21/29, 4/5] : List ℝ) = [0, 1] := by
      rw [argsortAsc, show List.range (([21/29, 4/5] : List ℝ)).length = [0, 1] from rfl]
      show List.orderedInsert _ 0 (List.orderedInsert _ 1 []) = [0, 1]
      rw [List.orderedInsert, List.orderedInsert]
      rw [if_pos (show IdxLe ([21/29, 4/5] : List ℝ) 0 1 from Or.inl (by norm_num))]
    rw [hsort]
    norm_num
  -- BM25: the query token "x" is not a BM25 corpus token
  have hbmv : bm25InVocab c1Corpus c1X = false := by decide
  have htq : bm25Tokenize c1X = [c1X] := by decide
  have hbm : bm25GetScores Real.log c1Corpus c1X = [0, 0] := by
    rw [bm25GetScores, hN, show List.range 2 = [0, 1] from rfl]
    have hzero : ∀ i, bm25ScoreDoc Real.log c1Corpus c1X i = 0 := by
      intro i
      rw [bm25ScoreDoc, htq, List.foldl_cons, List.foldl_nil]
      rw [if_neg (by rw [hbmv]; simp)]
    rw [List.map_cons, List.map_cons, List.map_nil, hzero, hzero]
  -- min-max normalisations
  have hmin1 : min (4/5 : ℝ) (21/29) = 21/29 := min_eq_right (by norm_num)
  have hmax1 : max (4/5 : ℝ) (21/29) = 4/5 := max_eq_left (by norm_num)
  have htn : normalizeScores ([4/5, 21/29] : List ℝ) = [1, 0] := by
    show (if max (4/5 : ℝ) (21/29) - min (4/5 : ℝ) (21/29) < 1/10000000000 then _ else _) = _
    rw [hmin1, hmax1, if_neg (by norm_num)]
    norm_num
  have htn' : normalizeScores ([21/29, 4/5] : List ℝ) = [0, 1] := by
    have hmin2 : min (21/29 : ℝ) (4/5) = 21/29 := min_eq_left (by norm_num)
    have hmax2 : max (21/29 : ℝ) (4/5) = 4/5 := max_eq_right (by norm_num)
    show (if max (21/29 : ℝ) (4/5) - min (21/29 : ℝ) (4/5) < 1/10000000000 then _ else _) = _
    rw [hmin2, hmax2, if_neg (by norm_num)]
    norm_num
  have hbn : normalizeScores ([0, 0] : List ℝ) = [1, 1] := by
    show (if max (0 : ℝ) 0 - min (0 : ℝ) 0 < 1/10000000000 then _ else _) = _
    rw [if_pos (by norm_num)]
    norm_num
  constructor
  · rw [findRelevantDocScoringIdx, hM, hrowq, hN, hsearch]
    show argmaxIdx (List.zipWith _ (normalizeScores [4/5, 21/29]) (normalizeScores [0, 0])) = 0
    rw [htn, hbn]
    show argmaxIdx [wTfidf * 1 + wBm25 * 1, wTfidf * 0 + wBm25 * 1] = 0
    rw [argmaxIdx_pair, if_neg (by norm_num [wTfidf, wBm25])]
  · rw [alignedFusedIdx, hM, hrowq, hcos, hbm]
    rw [htn', hbn]
    show argmaxIdx [wTfidf * 0 + wBm25 * 1, wTfidf * 1 + wBm25 * 1] = 1
    rw [argmaxIdx_pair, if_pos (by norm_num [wTfidf, wBm25])]

end ErrorClassifier
